import Mathlib

/-!
# TinyBling NeoPixel pendant: a shallow embedding of the firmware

The three firmware images (`neo_demo`, `neo_hunt`, `neo_wof`) are plain C on a
32-bit RISC-V core.  Conventions of the embedding:

* `uint8_t` / `uint32_t` values are natural numbers; every operation that can
  leave the range is followed by an explicit `% 256` or `% 2 ^ 32`;
* a C array of `NEO_COUNT` bytes is a `List Nat`; a read is `getD i 0`, a write
  is `List.set`;
* output on the NeoPixel line is returned as a value: the list of
  `NEO_writeColor` calls, the list of bytes handed to `NEO_sendByte`, or the
  list of pin events of one `NEO_sendByte`;
* hardware reads (the button pin, the SysTick counter) are explicit inputs.
-/

namespace TinyBling

/-- Number of NeoPixels (`NEO_COUNT`): 16 in the `config.h` of `neo_demo` and of
`neo_hunt`.  The `config.h` of `neo_wof` is not among the sources; the same
value is used there. -/
def NEO_COUNT : Nat := 16

namespace NeoDemo

/-! ## Configuration (`neo_demo/config.h`) -/

/-- Number of refresh periods per animation in automatic mode. -/
def NEO_AUTO_COUNT : Nat := 76

/-! ## NeoPixel buffer and gamma table -/

/-- Gamma correction table (`const uint8_t NEO_gamma[]`). -/
def NEO_gamma : List Nat :=
  [   0,   0,   0,   0,   0,   0,   0,   1,   1,   1,   2,   2,   3,   3,   4,   5,
      6,   7,   8,  10,  11,  13,  14,  16,  18,  20,  22,  25,  27,  30,  33,  36,
     39,  43,  47,  50,  55,  59,  63,  68,  73,  78,  83,  89,  95, 101, 107, 114,
    120, 127, 135, 142, 150, 158, 167, 175, 184, 193, 203, 213, 223, 233, 244, 255 ]

/-- The NeoPixel buffer: the two global arrays `NEO_hue[NEO_COUNT]` and
`NEO_bright[NEO_COUNT]`. -/
structure Strip where
  NEO_hue : List Nat
  NEO_bright : List Nat
deriving DecidableEq, Repr

/-- A strip is well formed when both arrays have `NEO_COUNT` cells and every
cell holds a `uint8_t`. -/
def Strip.WF (s : Strip) : Prop :=
  s.NEO_hue.length = NEO_COUNT ∧ s.NEO_bright.length = NEO_COUNT ∧
  (∀ x ∈ s.NEO_hue, x < 256) ∧ (∀ x ∈ s.NEO_bright, x < 256)

instance (s : Strip) : Decidable s.WF := by
  unfold Strip.WF; infer_instance

/-- A call `NEO_writeColor(r, g, b)`. -/
abbrev Color := Nat × Nat × Nat

/-- Bytes handed to `NEO_sendByte` by `NEO_writeColor(r, g, b)`: green, red,
blue, in this order. -/
def NEO_writeColor (c : Color) : List Nat :=
  [c.2.1, c.1, c.2.2]

/-- Body of the `for` loop of `NEO_show` for the buffer cell `(hue, bright)`:
the list of `NEO_writeColor` calls it makes (one call, or none in the
`default` branch of the `switch`).  The shift amount `6 - bright` is an `int`
in C; the truncated subtraction agrees with it for `bright ≤ 6`. -/
def NEO_show_body (hue bright : Nat) : List Color :=
  let phase := hue >>> 6
  let step := hue &&& 63
  let col := NEO_gamma.getD (step >>> (6 - bright)) 0
  let ncol := NEO_gamma.getD ((63 - step) >>> (6 - bright)) 0
  match phase with
  | 0 => [(ncol, col, 0)]
  | 1 => [(0, ncol, col)]
  | 2 => [(col, 0, ncol)]
  | _ => []

/-- Calls made by iteration `i` of `NEO_show`. -/
def NEO_show_iter (s : Strip) (i : Nat) : List Color :=
  NEO_show_body (s.NEO_hue.getD i 0) (s.NEO_bright.getD i 0)

/-- Write buffer to pixels (`NEO_show`): the `NEO_writeColor` calls made, in
order, for `i = 0 .. NEO_COUNT - 1`. -/
def NEO_show (s : Strip) : List Color :=
  (List.range NEO_COUNT).flatMap (NEO_show_iter s)

/-- Bytes transmitted by `NEO_show`, in order. -/
def NEO_show_bytes (s : Strip) : List Nat :=
  (NEO_show s).flatMap NEO_writeColor

/-- The colour model as the specification words it: `phase = hue / 64`,
`step = hue % 64`, `col = gamma[step >> (6 - level)]`,
`ncol = gamma[(63 - step) >> (6 - level)]`, mapped to channels by phase
(the specification names no result for a phase above 2). -/
def hueToRGB (hue level : Nat) : Option Color :=
  let phase := hue / 64
  let step := hue % 64
  let col := NEO_gamma.getD (step >>> (6 - level)) 0
  let ncol := NEO_gamma.getD ((63 - step) >>> (6 - level)) 0
  if phase = 0 then some (ncol, col, 0)
  else if phase = 1 then some (0, ncol, col)
  else if phase = 2 then some (col, 0, ncol)
  else none

/-- Channel assignment of the colour model as the specification words it:
phase 0 gives `(ncol, col, 0)`, phase 1 gives `(0, ncol, col)`, phase 2 gives
`(col, 0, ncol)`. -/
def phase_map (phase col ncol : Nat) : Color :=
  if phase = 0 then (ncol, col, 0)
  else if phase = 1 then (0, ncol, col)
  else (col, 0, ncol)

/-- A sample buffer content used to instantiate the theorems. -/
def sample_strip : Strip :=
  { NEO_hue := [0, 70, 130, 191, 12, 24, 36, 48, 60, 72, 84, 96, 108, 120, 132, 144],
    NEO_bright := [6, 3, 0, 6, 5, 4, 3, 2, 1, 0, 6, 6, 6, 6, 6, 2] }

/-- A well-formed buffer content whose pixel 0 stores the hue 192, outside the
hue wheel. -/
def bad_hue_strip : Strip :=
  { NEO_hue := [192, 0, 0, 0, 0, 0, 0, 0, 0, 0, 0, 0, 0, 0, 0, 0],
    NEO_bright := [6, 6, 6, 6, 6, 6, 6, 6, 6, 6, 6, 6, 6, 6, 6, 6] }

/-! ## Animation functions -/

/-- Set color to a single pixel (`NEO_set`).  A write past the end of the
arrays (undefined behaviour in C) leaves the lists unchanged. -/
def NEO_set (s : Strip) (number hue : Nat) : Strip :=
  { NEO_hue := s.NEO_hue.set number hue, NEO_bright := s.NEO_bright.set number 6 }

/-- Clear all pixels (`NEO_clear`): `NEO_bright[i] = 0` for `i = 0 .. NEO_COUNT - 1`. -/
def NEO_clear (s : Strip) : Strip :=
  (List.range NEO_COUNT).foldl
    (fun s i => { s with NEO_bright := s.NEO_bright.set i 0 }) s

/-- Fill all pixels with the same color (`NEO_fill`). -/
def NEO_fill (s : Strip) (hue : Nat) : Strip :=
  (List.range NEO_COUNT).foldl
    (fun s i => { s with NEO_hue := s.NEO_hue.set i hue }) s

/-- Fade in all pixels one step (`NEO_fadeIn`). -/
def NEO_fadeIn (s : Strip) : Strip :=
  (List.range NEO_COUNT).foldl
    (fun s i =>
      if s.NEO_bright.getD i 0 < 6 then
        { s with NEO_bright := s.NEO_bright.set i ((s.NEO_bright.getD i 0 + 1) % 256) }
      else s) s

/-- Fade out all pixels one step (`NEO_fadeOut`). -/
def NEO_fadeOut (s : Strip) : Strip :=
  (List.range NEO_COUNT).foldl
    (fun s i =>
      if s.NEO_bright.getD i 0 ≠ 0 then
        { s with NEO_bright := s.NEO_bright.set i ((s.NEO_bright.getD i 0 + 255) % 256) }
      else s) s

/-- Circle all pixels clockwise (`NEO_cw`): save the last cell, copy cell
`i - 1` to cell `i` for `i = NEO_COUNT - 1` down to `1`, store the saved cell
at index 0. -/
def NEO_cw (s : Strip) : Strip :=
  let btemp := s.NEO_bright.getD (NEO_COUNT - 1) 0
  let htemp := s.NEO_hue.getD (NEO_COUNT - 1) 0
  let s1 := (List.range' 1 (NEO_COUNT - 1)).reverse.foldl
    (fun s i =>
      { NEO_bright := s.NEO_bright.set i (s.NEO_bright.getD (i - 1) 0),
        NEO_hue := s.NEO_hue.set i (s.NEO_hue.getD (i - 1) 0) }) s
  { NEO_bright := s1.NEO_bright.set 0 btemp, NEO_hue := s1.NEO_hue.set 0 htemp }

/-- Circle all pixels counter-clockwise (`NEO_ccw`). -/
def NEO_ccw (s : Strip) : Strip :=
  let btemp := s.NEO_bright.getD 0 0
  let htemp := s.NEO_hue.getD 0 0
  let s1 := (List.range (NEO_COUNT - 1)).foldl
    (fun s i =>
      { NEO_bright := s.NEO_bright.set i (s.NEO_bright.getD (i + 1) 0),
        NEO_hue := s.NEO_hue.set i (s.NEO_hue.getD (i + 1) 0) }) s
  { NEO_bright := s1.NEO_bright.set (NEO_COUNT - 1) btemp,
    NEO_hue := s1.NEO_hue.set (NEO_COUNT - 1) htemp }

/-! ## Pseudo random number generator -/

/-- Seed of the generator (`static uint32_t rnval = 0xDEADBEEF`). -/
def prng_seed : Nat := 0xDEADBEEF

/-- State update of `prng`:
`rnval = rnval << 16 | (rnval << 1 ^ rnval << 2) >> 16` on `uint32_t`
(shifts bind tighter than `^`, which binds tighter than `|`). -/
def prng_next (rnval : Nat) : Nat :=
  ((rnval <<< 16) % 2 ^ 32) |||
    ((((rnval <<< 1) % 2 ^ 32) ^^^ ((rnval <<< 2) % 2 ^ 32)) >>> 16)

/-- The generator `prng(max)` with its static variable passed explicitly:
returns the new `rnval` and the value `rnval % max`.  (`max = 0` divides by
zero in C; here `x % 0 = x`.) -/
def prng (rnval max : Nat) : Nat × Nat :=
  let rnval := prng_next rnval
  (rnval, rnval % max)

/-! ## The byte transmitter (inline assembly of `NEO_sendByte`) -/

/-- The instructions of the `asm` block of `NEO_sendByte`, in program order. -/
inductive Instr where
  /-- `c.li a5, 8`: bit counter. -/
  | li_a5
  /-- `li a4, pin`: pin bitmap. -/
  | li_a4
  /-- `li a3, base`: GPIO base address. -/
  | li_a3
  /-- `andi a2, byte, 0x80`: mask the bit to shift out. -/
  | andi
  /-- `c.sw a4, bshr(a3)`: set the pin HIGH. -/
  | sw_high
  /-- `c.bnez a2, 2f`: skip the next instruction if the bit is 1. -/
  | bnez_bit
  /-- `c.sw a4, bcr(a3)` right after the branch: set the pin LOW early. -/
  | sw_low_early
  /-- `c.nop`: delay. -/
  | nop
  /-- `c.sw a4, bcr(a3)` after the delay: set the pin LOW. -/
  | sw_low
  /-- `c.slli byte, 1`: shift left for the next bit. -/
  | slli
  /-- `c.addi a5, -1`: decrease the bit counter. -/
  | addi
  /-- `c.bnez a5, 1b`: repeat while the counter is not zero. -/
  | bnez_loop
deriving DecidableEq, Repr

/-- Registers used by the `asm` block (32 bits each) and the instructions
executed so far. -/
structure Regs where
  a2 : Nat
  a5 : Nat
  byte : Nat
  trace : List Instr
deriving DecidableEq, Repr

/-- One pass through the loop body, from label `1:` to the closing `c.bnez`. -/
def NEO_sendByte_pass (r : Regs) : Regs :=
  let a2 := r.byte &&& 0x80
  let early := if a2 ≠ 0 then [] else [Instr.sw_low_early]
  { a2 := a2,
    a5 := (r.a5 + (2 ^ 32 - 1)) % 2 ^ 32,
    byte := (r.byte <<< 1) % 2 ^ 32,
    trace := r.trace ++ [Instr.andi, Instr.sw_high, Instr.bnez_bit] ++ early ++
      [Instr.nop, Instr.sw_low, Instr.slli, Instr.addi, Instr.bnez_loop] }

/-- The loop `1: ... c.bnez a5, 1b`, bounded by a number of passes; `none`
when the bound is reached before the counter is zero. -/
def NEO_sendByte_loop : Nat → Regs → Option Regs
  | 0, _ => none
  | fuel + 1, r =>
    let r1 := NEO_sendByte_pass r
    if r1.a5 ≠ 0 then NEO_sendByte_loop fuel r1 else some r1

/-- Send one data byte (`NEO_sendByte`): the instructions executed, given a
bound on the number of loop passes.  The initial content of the clobbered
register `a2` is irrelevant and taken as a parameter. -/
def NEO_sendByte (fuel a2 data : Nat) : Option (List Instr) :=
  (NEO_sendByte_loop fuel
    { a2 := a2, a5 := 8, byte := data,
      trace := [Instr.li_a5, Instr.li_a4, Instr.li_a3] }).map Regs.trace

/-- Level written to the NeoPixel pin by an instruction, if it writes it. -/
def Instr.pin : Instr → Option Bool
  | .sw_high => some true
  | .sw_low_early => some false
  | .sw_low => some false
  | _ => none

/-- Instructions executed for one bit: the pulse of a 1 skips the early
clear, the pulse of a 0 executes it. -/
def pulse (bit : Bool) : List Instr :=
  [Instr.andi, Instr.sw_high, Instr.bnez_bit] ++
    (if bit then [] else [Instr.sw_low_early]) ++
    [Instr.nop, Instr.sw_low, Instr.slli, Instr.addi, Instr.bnez_loop]

/-! ## Main function of the animation demo -/

/-- Variables of `main` together with the globals it works on. `out` collects
the bytes transmitted so far. -/
structure Anim where
  state : Nat
  counter : Nat
  hue1 : Nat
  hue2 : Nat
  ptr1 : Nat
  ptr2 : Nat
  mode : Nat
  strip : Strip
  rnval : Nat
  out : List Nat
deriving DecidableEq, Repr

/-- `NEO_show()` inside `main`: transmit the buffer. -/
def Anim.show (a : Anim) : Anim :=
  { a with out := a.out ++ NEO_show_bytes a.strip }

/-- Wrap of a hue variable: `if(h > 191) h -= 192;`. -/
def hue_wrap (h : Nat) : Nat :=
  if h > 191 then h - 192 else h

/-- The loop of state 2:
`for(uint8_t i=prng(4); i; i--) NEO_set(prng(NEO_COUNT), prng(192));`
after `i` has been initialised.  C does not fix the order in which the two
arguments are evaluated; `ltr` selects left-to-right or right-to-left. -/
def scatter (ltr : Bool) : Nat → Strip → Nat → Strip × Nat
  | 0, s, rn => (s, rn)
  | i + 1, s, rn =>
    if ltr then
      let p := prng rn NEO_COUNT
      let h := prng p.1 192
      scatter ltr i (NEO_set s (p.2 % 256) (h.2 % 256)) h.1
    else
      let h := prng rn 192
      let p := prng h.1 NEO_COUNT
      scatter ltr i (NEO_set s (p.2 % 256) (h.2 % 256)) p.1

/-- The loop of state 3: `for(i=0; i<NEO_COUNT; i++) NEO_set(i, prng(192));`. -/
def randomize (s : Strip) (rn : Nat) : Strip × Nat :=
  (List.range NEO_COUNT).foldl
    (fun (x : Strip × Nat) i =>
      let h := prng x.2 192
      (NEO_set x.1 i (h.2 % 256), h.1)) (s, rn)

/-- The loop of state 4: `NEO_hue[i] += prng(8); if(NEO_hue[i] > 191) NEO_hue[i] -= 192;`. -/
def drift (s : Strip) (rn : Nat) : Strip × Nat :=
  (List.range NEO_COUNT).foldl
    (fun (x : Strip × Nat) i =>
      let r := prng x.2 8
      let h := (x.1.NEO_hue.getD i 0 + r.2) % 256
      ({ x.1 with NEO_hue := x.1.NEO_hue.set i (hue_wrap h) }, r.1)) (s, rn)

/-- The loop of state 5:
`for(i=0; i<NEO_COUNT; i++, hue1+=192/NEO_COUNT) NEO_set(i, hue1);` started
with `hue1 = 0`; returns the strip and the final `hue1`. -/
def rainbow (s : Strip) : Strip × Nat :=
  (List.range NEO_COUNT).foldl
    (fun (x : Strip × Nat) i =>
      (NEO_set x.1 i x.2, (x.2 + 192 / NEO_COUNT) % 256)) (s, 0)

/-- The `switch(state)` of the main loop. -/
def animate (ltr : Bool) (a : Anim) : Anim :=
  match a.state with
  | 0 =>
    { a with hue1 := 0, hue2 := 96, ptr1 := 0, ptr2 := NEO_COUNT >>> 1,
             state := (a.state + 1) % 256 }
  | 1 =>
    let strip := NEO_fadeOut a.strip
    let hue1 := hue_wrap ((a.hue1 + 4) % 256)
    let hue2 := hue_wrap ((a.hue2 + 4) % 256)
    let ptr1 := if (a.ptr1 + 1) % 256 ≥ NEO_COUNT then 0 else (a.ptr1 + 1) % 256
    let ptr2 := if (a.ptr2 + 1) % 256 ≥ NEO_COUNT then 0 else (a.ptr2 + 1) % 256
    Anim.show { a with hue1 := hue1, hue2 := hue2, ptr1 := ptr1, ptr2 := ptr2,
                       strip := NEO_set (NEO_set strip ptr1 hue1) ptr2 hue2 }
  | 2 =>
    let strip := NEO_fadeOut a.strip
    let i := prng a.rnval 4
    let r := scatter ltr (i.2 % 256) strip i.1
    Anim.show { a with strip := r.1, rnval := r.2 }
  | 3 =>
    let r := randomize a.strip a.rnval
    Anim.show { a with strip := r.1, rnval := r.2, state := (a.state + 1) % 256 }
  | 4 =>
    let r := drift a.strip a.rnval
    Anim.show { a with strip := r.1, rnval := r.2 }
  | 5 =>
    let r := rainbow a.strip
    Anim.show { a with strip := r.1, hue1 := r.2, state := (a.state + 1) % 256 }
  | 6 =>
    Anim.show { a with strip := NEO_cw a.strip }
  | 7 =>
    let hue1 := hue_wrap ((a.hue1 + 3) % 256)
    Anim.show { a with hue1 := hue1, strip := NEO_fill a.strip hue1 }
  | _ => a

/-- The animation switching after the `switch`: in button mode the state
advances when the button is read pressed (`key = true`, that is
`PIN_read(PIN_KEY) == 0`; the busy wait for the release changes no variable),
in automatic mode when the decremented counter reaches zero. -/
def switching (key : Bool) (a : Anim) : Anim :=
  if a.mode ≠ 0 then
    if key then { a with state := (a.state + 1) % 256 } else a
  else
    let counter := (a.counter + 255) % 256
    if counter = 0 then
      { a with counter := NEO_AUTO_COUNT, state := (a.state + 1) % 256 }
    else { a with counter := counter }

/-- The end of the loop body: animation switching, then `if(state > 7) state = 0;`. -/
def advance (key : Bool) (a : Anim) : Anim :=
  let a1 := switching key a
  if a1.state > 7 then { a1 with state := 0 } else a1

/-- One iteration of `while(1)` in `main`; `key` is the button reading of this
iteration. -/
def loop_iter (ltr : Bool) (key : Bool) (a : Anim) : Anim :=
  advance key (animate ltr a)

/-- A sample state of `main` in animation state 7, button mode. -/
def sample_anim7 : Anim :=
  { state := 7, counter := NEO_AUTO_COUNT, hue1 := 30, hue2 := 96, ptr1 := 3, ptr2 := 11,
    mode := 1, strip := sample_strip, rnval := prng_seed, out := [] }

/-- State of `main` when the loop is entered.  `boot_key` is the button reading
at start-up (`mode = !PIN_read(PIN_KEY)`); the locals `hue1, hue2, ptr1, ptr2`
are not initialised by the program and their `uint8_t` content `u` is
arbitrary; the global arrays are zero-initialised. -/
def main_init (boot_key : Bool) (u : Nat × Nat × Nat × Nat) : Anim :=
  { state := 0, counter := NEO_AUTO_COUNT,
    hue1 := u.1 % 256, hue2 := u.2.1 % 256, ptr1 := u.2.2.1 % 256, ptr2 := u.2.2.2 % 256,
    mode := if boot_key then 1 else 0,
    strip := { NEO_hue := List.replicate NEO_COUNT 0, NEO_bright := List.replicate NEO_COUNT 0 },
    rnval := prng_seed, out := [] }

/-- The main loop run for one button reading per iteration. -/
def main_run (ltr : Bool) (boot_key : Bool) (u : Nat × Nat × Nat × Nat) (keys : List Bool) : Anim :=
  keys.foldl (fun a key => loop_iter ltr key a) (main_init boot_key u)

/-! ## Safety conditions of the animation loop -/

/-- Safety condition on the NeoPixel buffer: both arrays have `NEO_COUNT`
cells, every stored hue is below 192 and every stored brightness level is at
most 6. -/
def Strip.Safe (s : Strip) : Prop :=
  s.NEO_hue.length = NEO_COUNT ∧ s.NEO_bright.length = NEO_COUNT ∧
  (∀ x ∈ s.NEO_hue, x < 192) ∧ (∀ x ∈ s.NEO_bright, x ≤ 6)

/-- Safety condition on the arguments `(number, hue)` of a `NEO_set` call:
the index is inside the buffer and the hue is on the hue wheel. -/
def SetCallOK (c : Nat × Nat) : Prop :=
  c.1 < NEO_COUNT ∧ c.2 < 192

/-- A sequence of `NEO_set(number, hue)` calls applied to the buffer. -/
def apply_sets (calls : List (Nat × Nat)) (s : Strip) : Strip :=
  calls.foldl (fun s c => NEO_set s c.1 c.2) s

/-- Arguments of the `NEO_set` calls made by the loop of state 2, in order
(the companion of `scatter`). -/
def scatter_calls (ltr : Bool) : Nat → Nat → List (Nat × Nat)
  | 0, _ => []
  | i + 1, rn =>
    if ltr then
      let p := prng rn NEO_COUNT
      let h := prng p.1 192
      (p.2 % 256, h.2 % 256) :: scatter_calls ltr i h.1
    else
      let h := prng rn 192
      let p := prng h.1 NEO_COUNT
      (p.2 % 256, h.2 % 256) :: scatter_calls ltr i p.1

/-- Arguments of the `NEO_set(i, prng(192))` calls of state 3 for the pixel
indices in `l`, in order (the companion of `randomize`). -/
def randomize_calls : List Nat → Nat → List (Nat × Nat)
  | [], _ => []
  | i :: l, rn => (i, (prng rn 192).2 % 256) :: randomize_calls l (prng rn 192).1

/-- Arguments of the `NEO_set(i, hue1)` calls of state 5 for the pixel indices
in `l`, in order, `hue1` growing by `192 / NEO_COUNT` per call (the companion
of `rainbow`). -/
def rainbow_calls : List Nat → Nat → List (Nat × Nat)
  | [], _ => []
  | i :: l, hue1 => (i, hue1) :: rainbow_calls l ((hue1 + 192 / NEO_COUNT) % 256)

/-- Arguments of the `NEO_set` calls made by the `switch(state)` of one loop
iteration, in order: the two comets in state 1, the scattered pixels in state
2, every pixel in states 3 and 5, none in the other states. -/
def set_calls (ltr : Bool) (a : Anim) : List (Nat × Nat) :=
  match a.state with
  | 1 =>
    [(if (a.ptr1 + 1) % 256 ≥ NEO_COUNT then 0 else (a.ptr1 + 1) % 256,
        hue_wrap ((a.hue1 + 4) % 256)),
     (if (a.ptr2 + 1) % 256 ≥ NEO_COUNT then 0 else (a.ptr2 + 1) % 256,
        hue_wrap ((a.hue2 + 4) % 256))]
  | 2 => scatter_calls ltr ((prng a.rnval 4).2 % 256) (prng a.rnval 4).1
  | 3 => randomize_calls (List.range NEO_COUNT) a.rnval
  | 5 => rainbow_calls (List.range NEO_COUNT) 0
  | _ => []

/-- The buffer content the `NEO_set` calls of one iteration work on: the
faded buffer in states 1 and 2 (`NEO_fadeOut()` comes first), the buffer as it
is in the other states. -/
def set_base (a : Anim) : Strip :=
  match a.state with
  | 1 => NEO_fadeOut a.strip
  | 2 => NEO_fadeOut a.strip
  | _ => a.strip

/-- Channel-wise comparison of two `NEO_writeColor` calls: red, green and
blue of the first are each at most the same channel of the second. -/
def channels_le (c d : Color) : Prop :=
  c.1 ≤ d.1 ∧ c.2.1 ≤ d.2.1 ∧ c.2.2 ≤ d.2.2

/-- Every pixel of the buffer is at brightness level 6. -/
def Strip.FullBright (s : Strip) : Prop :=
  s.NEO_bright = List.replicate NEO_COUNT 6

end NeoDemo

namespace NeoHunt

/-! ## One-button hunting game (`neo_hunt`) -/

/-- Hunter step delay in ms at game start. -/
def GAME_SPEED_START : Nat := 256

/-- Hunter step delay increase in ms. -/
def GAME_SPEED_INC : Nat := 8

/-- NeoPixel color defines (24-bit color: `0x00bbrrgg`). -/
def NEO_BLACK : Nat := 0x00000000

/-- Red: `0x00003f00`. -/
def NEO_RED : Nat := 0x00003f00

/-- Green: `0x0000003f`. -/
def NEO_GREEN : Nat := 0x0000003f

/-- Blue: `0x003f0000`. -/
def NEO_BLUE : Nat := 0x003f0000

/-- Send color to one pixel (`NEO_sendColor`): the three bytes handed to
`NEO_sendByte`, each the low byte of the colour word shifted right by 8
between the calls. -/
def NEO_sendColor (color : Nat) : List Nat :=
  [color % 256, (color >>> 8) % 256, ((color >>> 8) >>> 8) % 256]

/-- Fill all pixels with the same color (`NEO_fillColor`). -/
def NEO_fillColor (color : Nat) : List Nat :=
  (List.range NEO_COUNT).flatMap (fun _ => NEO_sendColor color)

/-- Global variables of the game; `out` collects the bytes transmitted so far. -/
structure Game where
  hunter : Nat
  deer : Nat
  dir : Nat
  speed : Nat
  end_ : Nat
  out : List Nat
deriving DecidableEq, Repr

/-- Globals at program start: `hunter = 0`, the others zero-initialised. -/
def Game.init : Game :=
  { hunter := 0, deer := 0, dir := 0, speed := 0, end_ := 0, out := [] }

/-- Colour chosen for LED `i` in `GAME_update`. -/
def GAME_color (g : Game) (i : Nat) : Nat :=
  if i = g.hunter then NEO_GREEN
  else if i = g.deer then NEO_RED
  else NEO_BLACK

/-- Update game on NeoPixel display (`GAME_update`); `cnt` is the value read
from `STK->CNT`. -/
def GAME_update (cnt : Nat) (g : Game) : Game :=
  { g with
    out := g.out ++ (List.range NEO_COUNT).flatMap (fun i => NEO_sendColor (GAME_color g i)),
    end_ := (cnt + g.speed) % 2 ^ 32 }

/-- Logical not of a `uint8_t` flag (`!dir`). -/
def lnot (x : Nat) : Nat :=
  if x = 0 then 1 else 0

/-- Next position of the deer: `(hunter + 4 + (STK->CNT & 7)) & 15`, computed
on `uint32_t` and stored in a `uint8_t`. -/
def next_deer (hunter cnt : Nat) : Nat :=
  (((hunter + 4 + (cnt &&& 7)) % 2 ^ 32) &&& 15) % 256

/-- Reset game (`GAME_reset`).  `DLY_MS_TIME` is the number of SysTick counts
per millisecond, a constant of the absent `system.h`; `cnt1` and `cnt2` are
the two reads of `STK->CNT` (deer position, then `GAME_update`). -/
def GAME_reset (DLY_MS_TIME : Nat) (cnt1 cnt2 : Nat) (g : Game) : Game :=
  let g1 := { g with out := g.out ++ NEO_fillColor NEO_BLUE }
  let g2 := { g1 with deer := next_deer g1.hunter cnt1 }
  let g3 := { g2 with dir := lnot g2.dir }
  let g4 := { g3 with speed := (GAME_SPEED_START * DLY_MS_TIME) % 2 ^ 32 }
  GAME_update cnt2 g4

/-- Hardware reads of one iteration of the poll loop: `cnt0` is the counter
read by the step test, `cnt1, cnt2` the reads made inside the step branch,
`key` the button reading (`true` when `PIN_read(PIN_KEY) == 0`), `cnt3, cnt4`
the reads made inside the button branch. -/
structure Poll where
  cnt0 : Nat
  cnt1 : Nat
  cnt2 : Nat
  key : Bool
  cnt3 : Nat
  cnt4 : Nat
deriving DecidableEq, Repr

/-- The step test `((int32_t)(STK->CNT - end)) >= 0`. -/
def step_due (cnt end_ : Nat) : Bool :=
  (cnt % 2 ^ 32 + 2 ^ 32 - end_ % 2 ^ 32) % 2 ^ 32 < 2 ^ 31

/-- Move hunter: `if(dir) hunter++; else hunter--; hunter &= 15;` on `uint8_t`. -/
def move_hunter (dir hunter : Nat) : Nat :=
  (if dir ≠ 0 then (hunter + 1) % 256 else (hunter + 255) % 256) &&& 15

/-- The step part of the poll loop (`if(((int32_t)(STK->CNT - end)) >= 0) ...`). -/
def poll_step (DLY_MS_TIME : Nat) (p : Poll) (g : Game) : Game :=
  if step_due p.cnt0 g.end_ then
    if g.hunter = g.deer then GAME_reset DLY_MS_TIME p.cnt1 p.cnt2 g
    else GAME_update p.cnt2 { g with hunter := move_hunter g.dir g.hunter }
  else g

/-- The catch branch of the button part: relocate the deer, revert the
direction, increase the hunter speed, update the display. -/
def GAME_catch (DLY_MS_TIME : Nat) (cnt3 cnt4 : Nat) (g : Game) : Game :=
  let g1 := { g with deer := next_deer g.hunter cnt3 }
  let g2 := { g1 with dir := lnot g1.dir }
  let g3 := { g2 with
    speed := (g2.speed + 2 ^ 32 - (GAME_SPEED_INC * DLY_MS_TIME) % 2 ^ 32) % 2 ^ 32 }
  GAME_update cnt4 g3

/-- The button part of the poll loop (`if(!PIN_read(PIN_KEY)) ...`); the wait
for the release and the debounce delay change no variable. -/
def poll_key (DLY_MS_TIME : Nat) (p : Poll) (g : Game) : Game :=
  if p.key then
    if g.hunter = g.deer then GAME_catch DLY_MS_TIME p.cnt3 p.cnt4 g
    else GAME_reset DLY_MS_TIME p.cnt3 p.cnt4 g
  else g

/-- One iteration of `while(1)` in `main`. -/
def poll (DLY_MS_TIME : Nat) (p : Poll) (g : Game) : Game :=
  poll_key DLY_MS_TIME p (poll_step DLY_MS_TIME p g)

/-- The program `main`: the initial `GAME_reset` (counter reads `c1`, `c2`)
followed by one poll iteration per element of `ps`. -/
def main_poll (DLY_MS_TIME : Nat) (c1 c2 : Nat) (ps : List Poll) : Game :=
  ps.foldl (fun g p => poll DLY_MS_TIME p g) (GAME_reset DLY_MS_TIME c1 c2 Game.init)

/-- Invariant of the game: both positions are pixel indices. -/
def InRange (g : Game) : Prop :=
  g.hunter < NEO_COUNT ∧ g.deer < NEO_COUNT

/-- A sample game state used to instantiate the theorems. -/
def sample_game : Game :=
  { hunter := 14, deer := 3, dir := 1, speed := 2048000, end_ := 1000, out := [] }

/-- Sample hardware reads of one poll iteration: the step is due and the
button is read pressed. -/
def sample_poll : Poll :=
  { cnt0 := 5000000, cnt1 := 5000013, cnt2 := 5000500, key := true,
    cnt3 := 5001006, cnt4 := 5001500 }

/-- Bytes transmitted by the `for` loop of `GAME_update`: one `NEO_sendColor`
per LED, in order. -/
def GAME_frame (g : Game) : List Nat :=
  (List.range NEO_COUNT).flatMap (fun i => NEO_sendColor (GAME_color g i))

/-- The three bytes of pixel `i` in a transmitted frame. -/
def pixel_bytes (frame : List Nat) (i : Nat) : List Nat :=
  (frame.drop (3 * i)).take 3

/-- A game state in which the hunter stands on the deer. -/
def caught_game : Game :=
  { hunter := 5, deer := 5, dir := 1, speed := 2048000, end_ := 1000, out := [] }

/-- Hardware reads of the poll iteration number `m` (counted from 0) of a
sample run: every read of the counter returns `(m + 1) * 2100000`, so that
the step is due in every iteration. -/
def timed_poll (m : Nat) (key : Bool) : Poll :=
  { cnt0 := (m + 1) * 2100000, cnt1 := (m + 1) * 2100000, cnt2 := (m + 1) * 2100000,
    key := key, cnt3 := (m + 1) * 2100000, cnt4 := (m + 1) * 2100000 }

/-- The poll iterations of a sample run with the given button readings. -/
def timed_run (keys : List Bool) : List Poll :=
  keys.enum.map (fun mk => timed_poll mk.1 mk.2)

/-- Button readings of `n` consecutive catches after the initial reset: the
button is read pressed in the iteration in which the hunter lands on the deer,
after 4 steps when the hunter runs forward (catches 1, 3, ...) and after 12
steps when it runs backward (catches 2, 4, ...). -/
def catch_keys (n : Nat) : List Bool :=
  (List.range n).flatMap
    (fun k => List.replicate (if k % 2 = 0 then 3 else 11) false ++ [true])

/-- Number of consecutive catches after one iteration of the poll loop run
from `g`, `n` being the number before it: a `GAME_reset` (in the step part on a
missed deer, in the button part on a press off the deer) sets the number to 0,
the catch branch adds one. -/
def streak_poll (DLY_MS_TIME : Nat) (p : Poll) (g : Game) (n : Nat) : Nat :=
  let n1 := if step_due p.cnt0 g.end_ = true ∧ g.hunter = g.deer then 0 else n
  if p.key then
    if (poll_step DLY_MS_TIME p g).hunter = (poll_step DLY_MS_TIME p g).deer then n1 + 1
    else 0
  else n1

/-- Number of consecutive catches (catches since the last `GAME_reset`) after
the poll iterations `ps` run from `g`, `n` being the number in `g`. -/
def streak (DLY_MS_TIME : Nat) : List Poll → Game → Nat → Nat
  | [], _, n => n
  | p :: ps, g, n =>
    streak DLY_MS_TIME ps (poll DLY_MS_TIME p g) (streak_poll DLY_MS_TIME p g n)

end NeoHunt

namespace NeoWof

/-! ## Wheel of fortune (`neo_wof`) -/

/-- Write hue value (0..191) to a single pixel (`NEO_writeHue`): the
`NEO_writeColor` calls made (one, or none in the `default` branch).  `step`
and `nstep` are `uint8_t`. -/
def NEO_writeHue (hue : Nat) : List NeoDemo.Color :=
  let phase := hue >>> 6
  let step := ((hue &&& 63) <<< 2) % 256
  let nstep := ((63 <<< 2) + 256 - step) % 256
  match phase with
  | 0 => [(nstep, step, 0)]
  | 1 => [(0, nstep, step)]
  | 2 => [(step, 0, nstep)]
  | _ => []

/-- Set a single pixel and clear the others (`NEO_setPixel`): the
`NEO_writeColor` calls made, in order. -/
def NEO_setPixel (nr hue : Nat) : List NeoDemo.Color :=
  (List.range NEO_COUNT).flatMap
    (fun i => if i = nr then NEO_writeHue hue else [(0, 0, 0)])

/-- Local variables of `main` of the wheel of fortune.  `frames` collects the
output of the `NEO_setPixel` calls made so far, one entry per call (the
`NEO_writeColor` calls that call made, in order), `delays` the arguments of
the `DLY_ms` calls. -/
structure Wheel where
  number : Nat
  speed : Nat
  hue : Nat
  frames : List (List NeoDemo.Color)
  delays : List Nat
deriving DecidableEq, Repr

/-- The body shared by the two loops of a spin:
`if(++hue > 191) hue = 0; if(++number >= NEO_COUNT) number = 0;
NEO_setPixel(number, hue); DLY_ms(speed);` on `uint8_t` variables. -/
def wheel_step (w : Wheel) : Wheel :=
  let hue := if (w.hue + 1) % 256 > 191 then 0 else (w.hue + 1) % 256
  let number := if (w.number + 1) % 256 ≥ NEO_COUNT then 0 else (w.number + 1) % 256
  { w with hue := hue, number := number,
           frames := w.frames ++ [NEO_setPixel number hue], delays := w.delays ++ [w.speed] }

/-- The loop `while(--speed) { ... }` (increase speed), bounded by a number of
loop tests; `none` when the bound is reached before the loop ends. -/
def speed_up : Nat → Wheel → Option Wheel
  | 0, _ => none
  | fuel + 1, w =>
    let w1 := { w with speed := (w.speed + 255) % 256 }
    if w1.speed ≠ 0 then speed_up fuel (wheel_step w1) else some w1

/-- The loop `while(++speed < 96) { ... }`, bounded by a number of loop tests;
`none` when the bound is reached before the loop ends. -/
def slow_down : Nat → Wheel → Option Wheel
  | 0, _ => none
  | fuel + 1, w =>
    let w1 := { w with speed := (w.speed + 1) % 256 }
    if w1.speed < 96 then slow_down fuel (wheel_step w1) else some w1

/-- One spin, the body of `if(!PIN_read(PIN_KEY))`: the start speed
`16 + (STK->CNT & 15)` stored in a `uint8_t` (`cnt` is the counter value read),
the two loops, then the wait for the release (no variable changes) and the
debounce delay. -/
def spin (fuel cnt : Nat) (w : Wheel) : Option Wheel :=
  match speed_up fuel { w with speed := ((16 + (cnt &&& 15)) % 2 ^ 32) % 256 } with
  | none => none
  | some w1 =>
    match slow_down fuel w1 with
    | none => none
    | some w2 => some { w2 with delays := w2.delays ++ [10] }

/-- One iteration of `while(1)` in `main`, after the wake-up: a spin when the
button is read pressed (`key = true`), nothing otherwise. -/
def wheel_iter (fuel : Nat) (key : Bool) (cnt : Nat) (w : Wheel) : Option Wheel :=
  if key then spin fuel cnt w else some w

/-- State of `main` when the loop is entered: `number = 0`, `hue = 0`, the
start pixel set by `NEO_setPixel(number, hue)`; `speed` is not initialised and
holds an arbitrary `uint8_t`. -/
def wheel_init (u : Nat) : Wheel :=
  { number := 0, speed := u % 256, hue := 0, frames := [NEO_setPixel 0 0], delays := [] }

/-- A sample state of the wheel: pixel 9, hue 100. -/
def sample_wheel : Wheel :=
  { number := 9, speed := 96, hue := 100, frames := [], delays := [] }

end NeoWof

/-! ## Theorems -/

theorem flatMap_length_const {α β : Type} (f : α → List β) (k : Nat) (l : List α)
    (h : ∀ x ∈ l, (f x).length = k) : (l.flatMap f).length = k * l.length := by
  induction l with
  | nil => rfl
  | cons x l ih =>
    rw [List.flatMap_cons, List.length_append, h x (List.mem_cons_self x l),
      ih (fun y hy => h y (List.mem_cons_of_mem x hy)), List.length_cons]
    ring

theorem range_flatMap_block {β : Type} (f : Nat → List β) (k : Nat)
    (hk : ∀ j, (f j).length = k) (n : Nat) :
    ∀ i, i < n → (((List.range n).flatMap f).drop (k * i)).take k = f i := by
  induction n with
  | zero => intro i hi; omega
  | succ n ih =>
    intro i hi
    have hlen : ((List.range n).flatMap f).length = k * n := by
      rw [flatMap_length_const f k _ (fun x _ => hk x), List.length_range]
    rw [List.range_succ, List.flatMap_append, List.flatMap_cons, List.flatMap_nil,
      List.append_nil]
    by_cases hin : i < n
    · have hle : k * i + k ≤ k * n := by
        calc k * i + k = k * (i + 1) := by ring
          _ ≤ k * n := Nat.mul_le_mul_left k hin
      rw [List.drop_append_of_le_length (by omega),
        List.take_append_of_le_length (by rw [List.length_drop]; omega)]
      exact ih i hin
    · have hi2 : i = n := by omega
      subst hi2
      rw [← hlen, List.drop_left, ← hk i, List.take_length]

namespace NeoDemo

theorem NEO_show_body_eq (h b : Nat) (hh : h < 192) :
    NEO_show_body h b = (hueToRGB h b).toList := by
  have hp : h >>> 6 = h / 64 := by rw [Nat.shiftRight_eq_div_pow]
  have hs : h &&& 63 = h % 64 := Nat.and_pow_two_sub_one_eq_mod h 6
  have h3 : h / 64 < 3 := by omega
  unfold NEO_show_body hueToRGB
  rw [hp, hs]
  generalize h / 64 = p at h3
  interval_cases p <;> rfl

theorem NEO_show_iter_mem (s : Strip) (i : Nat) (hi : i < NEO_COUNT) (c : Color)
    (hc : c ∈ NEO_show_iter s i) : c ∈ NEO_show s := by
  unfold NEO_show
  exact List.mem_flatMap.mpr ⟨i, List.mem_range.mpr hi, hc⟩

/-- C1: for every pixel `i` of the strip whose stored hue `h` is below 192 and
whose brightness level `b` is at most 6, iteration `i` of `NEO_show` makes
exactly one `NEO_writeColor` call, with the triple the colour model names:
`phase = h / 64`, `step = h % 64`, `col = NEO_gamma[step >> (6 - b)]`,
`ncol = NEO_gamma[(63 - step) >> (6 - b)]`, and `(ncol, col, 0)`,
`(0, ncol, col)` or `(col, 0, ncol)` for phase 0, 1 or 2.  The shift amount
`6 - b` is a non-negative integer, both table indices are inside the table,
and they sit at the complementary positions `step` and `63 - step`. -/
theorem NEO_show_writes_hue_triple (s : Strip) (i : Nat) (hi : i < NEO_COUNT)
    (hh : s.NEO_hue.getD i 0 < 192) (hb : s.NEO_bright.getD i 0 ≤ 6) :
    ∃ phase step k col ncol : Nat,
      phase = s.NEO_hue.getD i 0 / 64 ∧ step = s.NEO_hue.getD i 0 % 64 ∧
      (k : Int) = 6 - (s.NEO_bright.getD i 0 : Int) ∧
      step >>> k < NEO_gamma.length ∧ (63 - step) >>> k < NEO_gamma.length ∧
      step + (63 - step) = 63 ∧
      NEO_gamma.get? (step >>> k) = some col ∧
      NEO_gamma.get? ((63 - step) >>> k) = some ncol ∧
      NEO_show_iter s i = [phase_map phase col ncol] ∧
      hueToRGB (s.NEO_hue.getD i 0) (s.NEO_bright.getD i 0) = some (phase_map phase col ncol) ∧
      phase_map phase col ncol ∈ NEO_show s := by
  generalize hH : s.NEO_hue.getD i 0 = h at hh
  generalize hB : s.NEO_bright.getD i 0 = b at hb
  have hstep : h % 64 < 64 := Nat.mod_lt _ (by decide)
  have hlen : NEO_gamma.length = 64 := by decide
  have hle1 : (h % 64) >>> (6 - b) < 64 := by
    rw [Nat.shiftRight_eq_div_pow]
    exact lt_of_le_of_lt (Nat.div_le_self _ _) hstep
  have hle2 : (63 - h % 64) >>> (6 - b) < 64 := by
    rw [Nat.shiftRight_eq_div_pow]
    exact lt_of_le_of_lt (Nat.div_le_self _ _) (by omega)
  have hspec : hueToRGB h b =
      some (phase_map (h / 64) (NEO_gamma.getD ((h % 64) >>> (6 - b)) 0)
        (NEO_gamma.getD ((63 - h % 64) >>> (6 - b)) 0)) := by
    unfold hueToRGB phase_map
    have h3 : h / 64 < 3 := by omega
    generalize h / 64 = p at h3
    interval_cases p <;> rfl
  have hiter : NEO_show_iter s i =
      [phase_map (h / 64) (NEO_gamma.getD ((h % 64) >>> (6 - b)) 0)
        (NEO_gamma.getD ((63 - h % 64) >>> (6 - b)) 0)] := by
    unfold NEO_show_iter
    rw [hH, hB, NEO_show_body_eq h b hh, hspec]
    rfl
  refine ⟨h / 64, h % 64, 6 - b, NEO_gamma.getD ((h % 64) >>> (6 - b)) 0,
    NEO_gamma.getD ((63 - h % 64) >>> (6 - b)) 0, rfl, rfl, by omega, by omega, by omega,
    by omega, ?_, ?_, hiter, hspec, ?_⟩
  · rw [List.getD_eq_getElem?_getD, List.get?_eq_getElem?, List.getElem?_eq_getElem (by omega)]
    rfl
  · rw [List.getD_eq_getElem?_getD, List.get?_eq_getElem?, List.getElem?_eq_getElem (by omega)]
    rfl
  · apply NEO_show_iter_mem s i hi
    rw [hiter]
    exact List.mem_singleton.mpr rfl

/-- Instance of C1 at pixel 1 of the sample strip (hue 70, level 3). -/
theorem NEO_show_writes_hue_triple_witness :
    ∃ phase step k col ncol : Nat,
      phase = sample_strip.NEO_hue.getD 1 0 / 64 ∧ step = sample_strip.NEO_hue.getD 1 0 % 64 ∧
      (k : Int) = 6 - (sample_strip.NEO_bright.getD 1 0 : Int) ∧
      step >>> k < NEO_gamma.length ∧ (63 - step) >>> k < NEO_gamma.length ∧
      step + (63 - step) = 63 ∧
      NEO_gamma.get? (step >>> k) = some col ∧
      NEO_gamma.get? ((63 - step) >>> k) = some ncol ∧
      NEO_show_iter sample_strip 1 = [phase_map phase col ncol] ∧
      hueToRGB (sample_strip.NEO_hue.getD 1 0) (sample_strip.NEO_bright.getD 1 0) =
        some (phase_map phase col ncol) ∧
      phase_map phase col ncol ∈ NEO_show sample_strip :=
  NEO_show_writes_hue_triple sample_strip 1 (by decide) (by decide) (by decide)

/-- C2: the gamma table has exactly 64 entries, is non-decreasing (each entry
is at most the next one, for the 63 adjacent index pairs, hence sorted), its
entry 0 is 0 and its entry 63 is 255. -/
theorem NEO_gamma_nondecreasing :
    NEO_gamma.length = 64 ∧
    (∀ i : Fin 63, NEO_gamma.getD i.val 0 ≤ NEO_gamma.getD (i.val + 1) 0) ∧
    List.Sorted (fun a b => a ≤ b) NEO_gamma ∧
    NEO_gamma.get? 0 = some 0 ∧ NEO_gamma.get? 63 = some 255 := by
  refine ⟨by decide, by decide, by decide, by decide, by decide⟩

theorem prng_next_lt (s : Nat) : prng_next s < 2 ^ 32 := by
  unfold prng_next
  apply Nat.or_lt_two_pow
  · exact Nat.mod_lt _ (by decide)
  · rw [Nat.shiftRight_eq_div_pow]
    have hx : ((s <<< 1) % 2 ^ 32) ^^^ ((s <<< 2) % 2 ^ 32) < 2 ^ 32 :=
      Nat.xor_lt_two_pow (Nat.mod_lt _ (by decide)) (Nat.mod_lt _ (by decide))
    exact lt_of_le_of_lt (Nat.div_le_self _ _) hx

theorem prng_next_arith (s : Nat) :
    prng_next s = (s % 2 ^ 16) * 2 ^ 16 + (((2 * s) % 2 ^ 32) ^^^ ((4 * s) % 2 ^ 32)) / 2 ^ 16 := by
  unfold prng_next
  have h1 : (s <<< 16) % 2 ^ 32 = 2 ^ 16 * (s % 2 ^ 16) := by
    rw [Nat.shiftLeft_eq, show (2 : Nat) ^ 32 = 2 ^ 16 * 2 ^ 16 by norm_num,
      Nat.mul_comm s, Nat.mul_mod_mul_left]
  have h2 : s <<< 1 = 2 * s := by rw [Nat.shiftLeft_eq]; omega
  have h3 : s <<< 2 = 4 * s := by rw [Nat.shiftLeft_eq]; omega
  have hx : ((2 * s) % 2 ^ 32) ^^^ ((4 * s) % 2 ^ 32) < 2 ^ 32 :=
    Nat.xor_lt_two_pow (Nat.mod_lt _ (by decide)) (Nat.mod_lt _ (by decide))
  have hlt : (((2 * s) % 2 ^ 32) ^^^ ((4 * s) % 2 ^ 32)) / 2 ^ 16 < 2 ^ 16 := by
    apply Nat.div_lt_of_lt_mul
    calc _ < 2 ^ 32 := hx
      _ = 2 ^ 16 * 2 ^ 16 := by norm_num
  rw [h1, h2, h3, Nat.shiftRight_eq_div_pow, ← Nat.mul_add_lt_is_or hlt, Nat.mul_comm]

/-- C3: for every state `s` and every `max > 0`, `prng(max)` replaces the
state by `(s << 16) | (((s << 1) ^ (s << 2)) >> 16)` with every left shift
reduced modulo `2 ^ 32`; the new state is again a 32-bit word, whose high half
is the low half of `s` and whose low half is the high half of the xor; the
value returned is the new state modulo `max`, which lies in `[0, max)`. -/
theorem prng_contract (s max : Nat) (hmax : 0 < max) :
    (prng s max).1 =
      (((s <<< 16) % 2 ^ 32) ||| ((((s <<< 1) % 2 ^ 32) ^^^ ((s <<< 2) % 2 ^ 32)) >>> 16)) ∧
    (prng s max).1 =
      (s % 2 ^ 16) * 2 ^ 16 + (((2 * s) % 2 ^ 32) ^^^ ((4 * s) % 2 ^ 32)) / 2 ^ 16 ∧
    (prng s max).1 < 2 ^ 32 ∧
    (prng s max).2 = (prng s max).1 % max ∧
    (prng s max).2 < max :=
  ⟨rfl, prng_next_arith s, prng_next_lt s, rfl, Nat.mod_lt _ hmax⟩

/-- Instance of C3 at the seed with `max = 192`. -/
theorem prng_contract_witness :
    (0 < 192) ∧ (prng 0xDEADBEEF 192).1 = 0xBEEFC7ED ∧ (prng 0xDEADBEEF 192).2 < 192 :=
  ⟨by decide, (prng_contract 0xDEADBEEF 192 (by decide)).1.trans (by decide),
    (prng_contract 0xDEADBEEF 192 (by decide)).2.2.2.2⟩

/-- C4: from the seed `0xDEADBEEF` the calls `prng(4)`, `prng(16)`,
`prng(192)` made in this order return 1, 0, 45, the state passing through
`0xBEEFC7ED`, `0xC7ED8660`, `0x8660906D`. -/
theorem prng_golden_sequence :
    prng prng_seed 4 = (0xBEEFC7ED, 1) ∧
    prng (prng prng_seed 4).1 16 = (0xC7ED8660, 0) ∧
    prng (prng (prng prng_seed 4).1 16).1 192 = (0x8660906D, 45) := by
  refine ⟨by decide, by decide, by decide⟩

theorem and_128_ne_zero (x : Nat) : decide (x &&& 0x80 ≠ 0) = x.testBit 7 := by
  have h128 : (0x80 : Nat) = 2 ^ 7 := by norm_num
  cases hb : x.testBit 7 with
  | false =>
    have : x &&& 0x80 = 0 := by
      apply Nat.eq_of_testBit_eq
      intro j
      rw [h128, Nat.testBit_and, Nat.testBit_two_pow, Nat.zero_testBit]
      by_cases hj : 7 = j
      · subst hj; simp [hb]
      · simp [hj]
    simp [this]
  | true =>
    have : x &&& 0x80 ≠ 0 := by
      intro h0
      have := congrArg (fun y => Nat.testBit y 7) h0
      simp only [h128, Nat.testBit_and, Nat.testBit_two_pow, Nat.zero_testBit, hb] at this
      simp at this
    simp [this]

theorem pass_trace (r : Regs) :
    (NEO_sendByte_pass r).trace = r.trace ++ pulse (r.byte.testBit 7) := by
  rw [← and_128_ne_zero]
  unfold NEO_sendByte_pass pulse
  by_cases h : r.byte &&& 0x80 = 0 <;> simp [h]

theorem shifted_bit (x k : Nat) :
    (((x <<< 1) % 2 ^ 32) <<< k).testBit 7 = (x <<< (k + 1)).testBit 7 := by
  simp only [Nat.testBit_shiftLeft, Nat.testBit_mod_two_pow]
  by_cases hk : k ≤ 6
  · have h1 : 7 ≥ k := by omega
    have h2 : 7 - k < 32 := by omega
    have h3 : 7 - k ≥ 1 := by omega
    have h4 : 7 ≥ k + 1 := by omega
    have h5 : 7 - k - 1 = 7 - (k + 1) := by omega
    simp [h1, h2, h3, h4, h5]
  · by_cases hk7 : k = 7
    · subst hk7; simp
    · have h1 : ¬ 7 ≥ k := by omega
      have h4 : ¬ 7 ≥ k + 1 := by omega
      simp [h1, h4]

theorem NEO_sendByte_loop_trace (n : Nat) : ∀ (fuel : Nat) (r : Regs),
    r.a5 = n + 1 → n + 1 < 2 ^ 32 → n + 1 ≤ fuel →
    (NEO_sendByte_loop fuel r).map Regs.trace =
      some (r.trace ++ (List.range (n + 1)).flatMap
        (fun k => pulse ((r.byte <<< k).testBit 7))) := by
  induction n with
  | zero =>
    intro fuel r ha _ hf
    obtain ⟨f, rfl⟩ : ∃ f, fuel = f + 1 := ⟨fuel - 1, by omega⟩
    have h5 : (NEO_sendByte_pass r).a5 = 0 := by
      simp [NEO_sendByte_pass, ha]
    simp [NEO_sendByte_loop, h5, pass_trace, List.range_succ]
  | succ n ih =>
    intro fuel r ha hn hf
    obtain ⟨f, rfl⟩ : ∃ f, fuel = f + 1 := ⟨fuel - 1, by omega⟩
    have h5 : (NEO_sendByte_pass r).a5 = n + 1 := by
      simp only [NEO_sendByte_pass, ha]
      omega
    have hb : (NEO_sendByte_pass r).byte = (r.byte <<< 1) % 2 ^ 32 := rfl
    have hrec := ih f (NEO_sendByte_pass r) h5 (by omega) (by omega)
    rw [NEO_sendByte_loop]
    simp only [h5]
    rw [if_pos (by omega), hrec, pass_trace, hb]
    rw [List.range_succ_eq_map (n + 1), List.flatMap_cons, List.flatMap_map]
    simp only [shifted_bit, Function.comp_def, Nat.shiftLeft_zero, List.append_assoc, Nat.succ_eq_add_one]

theorem pulse_pin (b : Bool) :
    (pulse b).filterMap Instr.pin = if b then [true, false] else [true, false, false] := by
  cases b <;> rfl

theorem pulses_pin (l : List Nat) (b : Nat → Bool) :
    (l.flatMap (fun k => pulse (b k))).filterMap Instr.pin =
      l.flatMap (fun k => if b k then [true, false] else [true, false, false]) := by
  induction l with
  | nil => rfl
  | cons x l ih => simp only [List.flatMap_cons, List.filterMap_append, ih, pulse_pin]

theorem pins_last_low (l : List Nat) (x : Nat) (b : Nat → Bool) :
    ((l ++ [x]).flatMap
      (fun k => if b k then [true, false] else [true, false, false])).getLast? = some false := by
  rw [List.flatMap_append, List.flatMap_cons, List.flatMap_nil, List.append_nil]
  cases b x <;> simp

theorem pulses_count_high (l : List Nat) (b : Nat → Bool) :
    (l.flatMap (fun k => pulse (b k))).count Instr.sw_high = l.length := by
  induction l with
  | nil => rfl
  | cons x l ih =>
    have hp : (pulse (b x)).count Instr.sw_high = 1 := by cases b x <;> decide
    simp only [List.flatMap_cons, List.count_append, ih, hp, List.length_cons]
    omega

/-- C5: for every byte value `v` (and whatever the clobbered register held),
`NEO_sendByte(v)` terminates after 8 loop passes and executes, after the three
set-up instructions, 8 pulses, most significant bit first: pulse `k` is the
long pulse of a 1 (early clear skipped) when bit `7 - k` of `v` is set and
the short pulse of a 0 (pin cleared by the instruction right after the
branch) when it is not.  On the pin this is 8 rising writes, each followed by
one clear for a 1 and two clears for a 0, and the last write leaves it low. -/
theorem NEO_sendByte_pulses (v a2 fuel : Nat) (hf : 8 ≤ fuel) :
    ∃ t : List Instr,
      NEO_sendByte fuel a2 v = some t ∧
      t = [Instr.li_a5, Instr.li_a4, Instr.li_a3] ++
        (List.range 8).flatMap (fun k => pulse (v.testBit (7 - k))) ∧
      t.filterMap Instr.pin =
        (List.range 8).flatMap
          (fun k => if v.testBit (7 - k) then [true, false] else [true, false, false]) ∧
      t.count Instr.sw_high = 8 ∧
      (t.filterMap Instr.pin).getLast? = some false := by
  have hrun : NEO_sendByte fuel a2 v =
      some ([Instr.li_a5, Instr.li_a4, Instr.li_a3] ++
        (List.range 8).flatMap (fun k => pulse (v.testBit (7 - k)))) := by
    unfold NEO_sendByte
    rw [NEO_sendByte_loop_trace 7 fuel _ rfl (by norm_num) hf]
    simp only [Nat.testBit_shiftLeft]
    rfl
  have hpin : ([Instr.li_a5, Instr.li_a4, Instr.li_a3] ++
        (List.range 8).flatMap (fun k => pulse (v.testBit (7 - k)))).filterMap Instr.pin =
      (List.range 8).flatMap
          (fun k => if v.testBit (7 - k) then [true, false] else [true, false, false]) := by
    rw [List.filterMap_append, pulses_pin]
    rfl
  refine ⟨_, hrun, rfl, hpin, ?_, ?_⟩
  · rw [List.count_append, pulses_count_high]
    rfl
  · rw [hpin, List.range_succ]
    exact pins_last_low (List.range 7) 7 _

/-- Instance of C5 for the byte `0xA5` with a bound of 8 passes. -/
theorem NEO_sendByte_pulses_witness :
    8 ≤ 8 ∧ ∃ t : List Instr,
      NEO_sendByte 8 0 0xA5 = some t ∧
      t = [Instr.li_a5, Instr.li_a4, Instr.li_a3] ++
        (List.range 8).flatMap (fun k => pulse (Nat.testBit 0xA5 (7 - k))) ∧
      t.filterMap Instr.pin =
        (List.range 8).flatMap
          (fun k => if Nat.testBit 0xA5 (7 - k) then [true, false] else [true, false, false]) ∧
      t.count Instr.sw_high = 8 ∧
      (t.filterMap Instr.pin).getLast? = some false :=
  ⟨by decide, NEO_sendByte_pulses 0xA5 0 8 (by decide)⟩

theorem advance_state_lt (key : Bool) (a : Anim) : (advance key a).state < 8 := by
  unfold advance
  generalize switching key a = a1
  by_cases h : a1.state > 7
  · simp [h]
  · simp only [h, if_false]; omega

theorem animate_state_seven (ltr : Bool) (a : Anim) (h : a.state = 7) :
    (animate ltr a).state = 7 ∧ (animate ltr a).mode = a.mode ∧
    (animate ltr a).counter = a.counter := by
  unfold animate
  rw [h]
  simp [Anim.show, h]

theorem main_run_state_lt (ltr : Bool) (keys : List Bool) :
    ∀ a : Anim, a.state < 8 → (keys.foldl (fun a key => loop_iter ltr key a) a).state < 8 := by
  induction keys with
  | nil => intro a h; exact h
  | cons k ks ih => intro a _; exact ih _ (advance_state_lt k _)

/-- C6: whatever the evaluation order of the compiler, the button reading at
start-up, the content of the uninitialised locals and the sequence of button
readings, the state variable is below 8 at the start of every iteration of the
main loop (the state after any number of iterations, none included); one
iteration started in a state below 8 ends in a state below 8; and an
iteration started in state 7 in which the state advances (button mode with
the button read pressed, or automatic mode with the counter at 1) ends in
state 0. -/
theorem anim_state_in_range :
    (∀ (ltr boot_key : Bool) (u : Nat × Nat × Nat × Nat) (keys : List Bool),
      (main_run ltr boot_key u keys).state < 8) ∧
    (∀ (ltr key : Bool) (a : Anim), a.state < 8 → (loop_iter ltr key a).state < 8) ∧
    (∀ (ltr : Bool) (a : Anim), a.state = 7 → a.mode ≠ 0 →
      (loop_iter ltr true a).state = 0 ∧ (loop_iter ltr false a).state = 7) ∧
    (∀ (ltr key : Bool) (a : Anim), a.state = 7 → a.mode = 0 →
      (a.counter = 1 → (loop_iter ltr key a).state = 0) ∧
      (1 < a.counter → a.counter < 256 → (loop_iter ltr key a).state = 7)) := by
  refine ⟨?_, ?_, ?_, ?_⟩
  · intro ltr boot_key u keys
    exact main_run_state_lt ltr keys _ (Nat.zero_lt_succ 7)
  · intro ltr key a _
    exact advance_state_lt key _
  · intro ltr a h7 hm
    obtain ⟨hs, hm1, _⟩ := animate_state_seven ltr a h7
    have hm2 : (animate ltr a).mode ≠ 0 := by rw [hm1]; exact hm
    constructor
    · simp [loop_iter, advance, switching, hs, hm2]
    · simp [loop_iter, advance, switching, hs, hm2]
  · intro ltr key a h7 hm
    obtain ⟨hs, hm1, hc⟩ := animate_state_seven ltr a h7
    have hm2 : (animate ltr a).mode = 0 := by rw [hm1]; exact hm
    constructor
    · intro h1
      simp [loop_iter, advance, switching, hs, hm2, hc, h1]
    · intro h1 h2
      have h3 : (a.counter + 255) % 256 ≠ 0 := by omega
      simp [loop_iter, advance, switching, hs, hm2, hc, h3]

/-- Instance of C6: four iterations in button mode, and the advance from
state 7 to state 0 at the sample state. -/
theorem anim_state_in_range_witness :
    (main_run true true (0, 0, 0, 0) [true, true, false, true]).state < 8 ∧
    (loop_iter true true sample_anim7).state = 0 :=
  ⟨anim_state_in_range.1 true true (0, 0, 0, 0) [true, true, false, true],
    (anim_state_in_range.2.2.1 true sample_anim7 rfl (by decide)).1⟩


theorem list_length_16 (l : List Nat) (h : l.length = 16) :
    ∃ a0 a1 a2 a3 a4 a5 a6 a7 a8 a9 a10 a11 a12 a13 a14 a15,
      l = [a0, a1, a2, a3, a4, a5, a6, a7, a8, a9, a10, a11, a12, a13, a14, a15] := by
  match l, h with
  | [a0, a1, a2, a3, a4, a5, a6, a7, a8, a9, a10, a11, a12, a13, a14, a15], _ =>
    exact ⟨a0, a1, a2, a3, a4, a5, a6, a7, a8, a9, a10, a11, a12, a13, a14, a15, rfl⟩

theorem NEO_clear_eq (s : Strip) (hb : s.NEO_bright.length = NEO_COUNT) :
    NEO_clear s = { NEO_hue := s.NEO_hue, NEO_bright := List.replicate NEO_COUNT 0 } := by
  obtain ⟨hue, bright⟩ := s
  obtain ⟨b0, b1, b2, b3, b4, b5, b6, b7, b8, b9, b10, b11, b12, b13, b14, b15, rfl⟩ :=
    list_length_16 bright hb
  rfl

theorem NEO_show_dark_eq (hue : List Nat) (hl : hue.length = NEO_COUNT) :
    NEO_show { NEO_hue := hue, NEO_bright := List.replicate NEO_COUNT 0 } =
      hue.flatMap (fun h => NEO_show_body h 0) := by
  obtain ⟨h0, h1, h2, h3, h4, h5, h6, h7, h8, h9, h10, h11, h12, h13, h14, h15, rfl⟩ :=
    list_length_16 hue hl
  rfl

theorem NEO_show_body_dark (h : Nat) (hh : h < 256) :
    NEO_show_body h 0 = if h < 192 then [(0, 0, 0)] else [] := by
  have hp : h >>> 6 = h / 64 := by rw [Nat.shiftRight_eq_div_pow]
  have hs : h &&& 63 = h % 64 := Nat.and_pow_two_sub_one_eq_mod h 6
  have h1 : (h % 64) >>> 6 = 0 := by rw [Nat.shiftRight_eq_div_pow]; omega
  have h2 : (63 - h % 64) >>> 6 = 0 := by rw [Nat.shiftRight_eq_div_pow]; omega
  have h4 : h / 64 < 4 := by omega
  unfold NEO_show_body
  simp only [hp, hs, Nat.sub_zero, h1, h2]
  by_cases h192 : h < 192
  · have h3 : h / 64 < 3 := by omega
    rw [if_pos h192]
    generalize h / 64 = p at h3
    interval_cases p <;> rfl
  · have h3 : h / 64 = 3 := by omega
    rw [if_neg h192, h3]

theorem dark_frame (l : List Nat) (hl : ∀ x ∈ l, x < 256) :
    l.flatMap (fun h => NEO_show_body h 0) =
      List.replicate (l.countP (fun h => decide (h < 192))) ((0, 0, 0) : Color) := by
  induction l with
  | nil => rfl
  | cons x l ih =>
    have hx := hl x (List.mem_cons_self x l)
    rw [List.flatMap_cons, ih (fun y hy => hl y (List.mem_cons_of_mem x hy)),
      NEO_show_body_dark x hx, List.countP_cons]
    by_cases h192 : x < 192
    · simp [h192, List.replicate_succ]
    · simp [h192]

theorem dark_bytes (n : Nat) :
    (List.replicate n ((0, 0, 0) : Color)).flatMap NEO_writeColor = List.replicate (3 * n) 0 := by
  induction n with
  | zero => rfl
  | succ n ih =>
    rw [List.replicate_succ, List.flatMap_cons, ih, show 3 * (n + 1) = 3 * n + 3 by ring]
    rfl

theorem NEO_clear_show_frame (s : Strip) (hwf : s.WF) :
    NEO_show (NEO_clear s) =
      List.replicate (s.NEO_hue.countP (fun h => decide (h < 192))) ((0, 0, 0) : Color) := by
  obtain ⟨hl, hb, hu, _⟩ := hwf
  rw [NEO_clear_eq s hb, NEO_show_dark_eq _ hl, dark_frame _ hu]

/-- C7 as stated fails: the well-formed strip whose pixel 0 stores hue 192
makes `NEO_show` take the `default` branch for that pixel, so after
`NEO_clear` only 15 pixels (45 zero bytes) are transmitted, not `NEO_COUNT`. -/
theorem NEO_clear_show_skips_hue_192 :
    bad_hue_strip.WF ∧
    NEO_show_bytes (NEO_clear bad_hue_strip) = List.replicate (3 * 15) 0 ∧
    NEO_show_bytes (NEO_clear bad_hue_strip) ≠ List.replicate (3 * NEO_COUNT) 0 := by
  refine ⟨by decide, by decide, by decide⟩

/-- C7 (amended): for every well-formed strip whose stored hues are all below
192, `NEO_clear` followed by `NEO_show` emits an all-off frame: `NEO_COUNT`
calls `NEO_writeColor(0, 0, 0)`, that is `3 * NEO_COUNT` zero bytes. -/
theorem NEO_clear_show_all_off (s : Strip) (hwf : s.WF) (hh : ∀ x ∈ s.NEO_hue, x < 192) :
    NEO_show (NEO_clear s) = List.replicate NEO_COUNT ((0, 0, 0) : Color) ∧
    NEO_show_bytes (NEO_clear s) = List.replicate (3 * NEO_COUNT) 0 := by
  have hc : s.NEO_hue.countP (fun h => decide (h < 192)) = NEO_COUNT := by
    rw [List.countP_eq_length.mpr (fun x hx => decide_eq_true (hh x hx))]
    exact hwf.1
  have h1 := NEO_clear_show_frame s hwf
  rw [hc] at h1
  refine ⟨h1, ?_⟩
  unfold NEO_show_bytes
  rw [h1, dark_bytes]

/-- Instance of the amended C7 at the sample strip. -/
theorem NEO_clear_show_all_off_witness :
    sample_strip.WF ∧ (∀ x ∈ sample_strip.NEO_hue, x < 192) ∧
    NEO_show (NEO_clear sample_strip) = List.replicate NEO_COUNT ((0, 0, 0) : Color) ∧
    NEO_show_bytes (NEO_clear sample_strip) = List.replicate (3 * NEO_COUNT) 0 :=
  ⟨by decide, by decide, NEO_clear_show_all_off sample_strip (by decide) (by decide)⟩

theorem NEO_cw_eq (a0 a1 a2 a3 a4 a5 a6 a7 a8 a9 a10 a11 a12 a13 a14 a15
    b0 b1 b2 b3 b4 b5 b6 b7 b8 b9 b10 b11 b12 b13 b14 b15 : Nat) :
    NEO_cw { NEO_hue := [a0, a1, a2, a3, a4, a5, a6, a7, a8, a9, a10, a11, a12, a13, a14, a15],
             NEO_bright := [b0, b1, b2, b3, b4, b5, b6, b7, b8, b9, b10, b11, b12, b13, b14, b15] } =
      { NEO_hue := [a15, a0, a1, a2, a3, a4, a5, a6, a7, a8, a9, a10, a11, a12, a13, a14],
        NEO_bright := [b15, b0, b1, b2, b3, b4, b5, b6, b7, b8, b9, b10, b11, b12, b13, b14] } := by
  have hr : (List.range' 1 (NEO_COUNT - 1)).reverse =
      [15, 14, 13, 12, 11, 10, 9, 8, 7, 6, 5, 4, 3, 2, 1] := by
    decide
  unfold NEO_cw
  rw [hr]
  simp only [List.foldl_cons, List.foldl_nil, NEO_COUNT]
  simp

theorem NEO_cw_shift (s : Strip) (hl : s.NEO_hue.length = NEO_COUNT)
    (hb : s.NEO_bright.length = NEO_COUNT) (i : Nat) (hi : i < NEO_COUNT) :
    (NEO_cw s).NEO_hue[(i + 1) % NEO_COUNT]? = s.NEO_hue[i]? ∧
    (NEO_cw s).NEO_bright[(i + 1) % NEO_COUNT]? = s.NEO_bright[i]? ∧
    (NEO_cw s).NEO_hue.length = NEO_COUNT ∧ (NEO_cw s).NEO_bright.length = NEO_COUNT := by
  obtain ⟨hue, bright⟩ := s
  obtain ⟨a0, a1, a2, a3, a4, a5, a6, a7, a8, a9, a10, a11, a12, a13, a14, a15, rfl⟩ :=
    list_length_16 hue hl
  obtain ⟨b0, b1, b2, b3, b4, b5, b6, b7, b8, b9, b10, b11, b12, b13, b14, b15, rfl⟩ :=
    list_length_16 bright hb
  rw [NEO_cw_eq]
  have hi16 : i < 16 := hi
  interval_cases i <;> exact ⟨rfl, rfl, rfl, rfl⟩

/-- C8: for every strip of `NEO_COUNT` pixels, `NEO_cw` is a cyclic shift by
one position: afterwards cell `(i + 1) % NEO_COUNT` of each array holds what
cell `i` held before, for every `i < NEO_COUNT` (so cell 0 holds what the last
cell held), and both arrays keep their length.  In particular a pixel `n` set
by `NEO_set` to hue 0 and then to hue 64 is found at index
`(n + 1) % NEO_COUNT` with hue 64 and brightness 6 after one rotation. -/
theorem NEO_cw_rotates (s : Strip) (hl : s.NEO_hue.length = NEO_COUNT)
    (hb : s.NEO_bright.length = NEO_COUNT) :
    (∀ i, i < NEO_COUNT →
      (NEO_cw s).NEO_hue[(i + 1) % NEO_COUNT]? = s.NEO_hue[i]? ∧
      (NEO_cw s).NEO_bright[(i + 1) % NEO_COUNT]? = s.NEO_bright[i]?) ∧
    (NEO_cw s).NEO_hue.length = NEO_COUNT ∧ (NEO_cw s).NEO_bright.length = NEO_COUNT ∧
    (NEO_cw s).NEO_hue[0]? = s.NEO_hue[NEO_COUNT - 1]? ∧
    (NEO_cw s).NEO_bright[0]? = s.NEO_bright[NEO_COUNT - 1]? ∧
    (∀ n, n < NEO_COUNT →
      (NEO_cw (NEO_set (NEO_set s n 0) n 64)).NEO_hue[(n + 1) % NEO_COUNT]? = some 64 ∧
      (NEO_cw (NEO_set (NEO_set s n 0) n 64)).NEO_bright[(n + 1) % NEO_COUNT]? = some 6) := by
  refine ⟨fun i hi => ⟨(NEO_cw_shift s hl hb i hi).1, (NEO_cw_shift s hl hb i hi).2.1⟩,
    (NEO_cw_shift s hl hb 0 (by decide)).2.2.1, (NEO_cw_shift s hl hb 0 (by decide)).2.2.2,
    (NEO_cw_shift s hl hb 15 (by decide)).1, (NEO_cw_shift s hl hb 15 (by decide)).2.1, ?_⟩
  intro n hn
  have hl2 : (NEO_set (NEO_set s n 0) n 64).NEO_hue.length = NEO_COUNT := by
    simp [NEO_set, hl]
  have hb2 : (NEO_set (NEO_set s n 0) n 64).NEO_bright.length = NEO_COUNT := by
    simp [NEO_set, hb]
  obtain ⟨h1, h2, _, _⟩ := NEO_cw_shift _ hl2 hb2 n hn
  rw [h1, h2]
  constructor
  · simp [NEO_set, hl, hn]
  · simp [NEO_set, hb, hn]

/-- Instance of C8 at the sample strip (pixel 3, and pixel 15 wrapping to 0). -/
theorem NEO_cw_rotates_witness :
    (NEO_cw sample_strip).NEO_hue[(3 + 1) % NEO_COUNT]? = sample_strip.NEO_hue[3]? ∧
    (NEO_cw (NEO_set (NEO_set sample_strip 15 0) 15 64)).NEO_hue[(15 + 1) % NEO_COUNT]? = some 64 ∧
    (NEO_cw (NEO_set (NEO_set sample_strip 15 0) 15 64)).NEO_bright[(15 + 1) % NEO_COUNT]? = some 6 :=
  ⟨((NEO_cw_rotates sample_strip (by decide) (by decide)).1 3 (by decide)).1,
    (NEO_cw_rotates sample_strip (by decide) (by decide)).2.2.2.2.2 15 (by decide)⟩

end NeoDemo

namespace NeoHunt

theorem next_deer_lt (hunter cnt : Nat) : next_deer hunter cnt < NEO_COUNT := by
  unfold next_deer
  have h1 : ((hunter + 4 + (cnt &&& 7)) % 2 ^ 32) &&& 15 ≤ 15 := Nat.and_le_right
  have h2 : (((hunter + 4 + (cnt &&& 7)) % 2 ^ 32) &&& 15) % 256 ≤
      ((hunter + 4 + (cnt &&& 7)) % 2 ^ 32) &&& 15 := Nat.mod_le _ _
  exact Nat.lt_of_le_of_lt (Nat.le_trans h2 h1) (by decide)

theorem move_hunter_lt (dir hunter : Nat) : move_hunter dir hunter < NEO_COUNT := by
  unfold move_hunter
  exact Nat.lt_of_le_of_lt Nat.and_le_right (by decide)

theorem GAME_update_fields (cnt : Nat) (g : Game) :
    (GAME_update cnt g).hunter = g.hunter ∧ (GAME_update cnt g).deer = g.deer ∧
    (GAME_update cnt g).dir = g.dir ∧ (GAME_update cnt g).speed = g.speed ∧
    (GAME_update cnt g).end_ = (cnt + g.speed) % 2 ^ 32 :=
  ⟨rfl, rfl, rfl, rfl, rfl⟩

theorem GAME_reset_fields (D c1 c2 : Nat) (g : Game) :
    (GAME_reset D c1 c2 g).hunter = g.hunter ∧
    (GAME_reset D c1 c2 g).deer = next_deer g.hunter c1 ∧
    (GAME_reset D c1 c2 g).dir = lnot g.dir ∧
    (GAME_reset D c1 c2 g).speed = (GAME_SPEED_START * D) % 2 ^ 32 :=
  ⟨rfl, rfl, rfl, rfl⟩

theorem GAME_reset_inRange (D c1 c2 : Nat) (g : Game) (h : InRange g) :
    InRange (GAME_reset D c1 c2 g) :=
  ⟨h.1, next_deer_lt _ _⟩

theorem GAME_catch_inRange (D c3 c4 : Nat) (g : Game) (h : InRange g) :
    InRange (GAME_catch D c3 c4 g) :=
  ⟨h.1, next_deer_lt _ _⟩

theorem poll_inRange (D : Nat) (p : Poll) (g : Game) (h : InRange g) :
    InRange (poll D p g) := by
  have hs : InRange (poll_step D p g) := by
    unfold poll_step
    split
    · split
      · exact GAME_reset_inRange D _ _ g h
      · exact ⟨move_hunter_lt _ _, h.2⟩
    · exact h
  unfold poll poll_key
  split
  · split
    · exact GAME_catch_inRange D _ _ _ hs
    · exact GAME_reset_inRange D _ _ _ hs
  · exact hs

theorem run_inRange (D : Nat) (ps : List Poll) :
    ∀ g : Game, InRange g → InRange (ps.foldl (fun g p => poll D p g) g) := by
  induction ps with
  | nil => intro g h; exact h
  | cons p ps ih => intro g h; exact ih _ (poll_inRange D p g h)

/-- C9: in the initial state, after the initial `GAME_reset` and after any
number of poll iterations, for any value of `DLY_MS_TIME`, any counter values
and any button readings, `hunter` and `deer` are both below `NEO_COUNT = 16`;
`GAME_reset` and one poll iteration keep them there from any such state; a
backward step from hunter 0 gives 15 and a forward step from 15 gives 0. -/
theorem hunter_deer_in_range :
    (Game.init.hunter < NEO_COUNT ∧ Game.init.deer < NEO_COUNT) ∧
    (∀ (D c1 c2 : Nat) (ps : List Poll),
      (main_poll D c1 c2 ps).hunter < NEO_COUNT ∧ (main_poll D c1 c2 ps).deer < NEO_COUNT) ∧
    (∀ (D c1 c2 : Nat) (g : Game), g.hunter < NEO_COUNT → g.deer < NEO_COUNT →
      (GAME_reset D c1 c2 g).hunter < NEO_COUNT ∧ (GAME_reset D c1 c2 g).deer < NEO_COUNT) ∧
    (∀ (D : Nat) (p : Poll) (g : Game), g.hunter < NEO_COUNT → g.deer < NEO_COUNT →
      (poll D p g).hunter < NEO_COUNT ∧ (poll D p g).deer < NEO_COUNT) ∧
    NEO_COUNT = 16 ∧
    move_hunter 0 0 = 15 ∧ (∀ dir, dir ≠ 0 → move_hunter dir 15 = 0) := by
  refine ⟨⟨by decide, by decide⟩, ?_, ?_, ?_, rfl, by decide, ?_⟩
  · intro D c1 c2 ps
    exact run_inRange D ps _ (GAME_reset_inRange D c1 c2 _ ⟨by decide, by decide⟩)
  · intro D c1 c2 g h1 h2
    exact GAME_reset_inRange D c1 c2 g ⟨h1, h2⟩
  · intro D p g h1 h2
    exact poll_inRange D p g ⟨h1, h2⟩
  · intro dir hd
    unfold move_hunter
    rw [if_pos hd]
    decide

theorem and7 (c : Nat) : c &&& 7 = c % 8 := Nat.and_pow_two_sub_one_eq_mod c 3

theorem next_deer_eq (hunter c : Nat) (hh : hunter < 16) :
    next_deer hunter c = (hunter + 4 + c % 8) % NEO_COUNT := by
  unfold next_deer
  rw [and7]
  have h8 : c % 8 < 8 := Nat.mod_lt _ (by decide)
  have h1 : (hunter + 4 + c % 8) % 2 ^ 32 = hunter + 4 + c % 8 := Nat.mod_eq_of_lt (by omega)
  have h2 : ∀ x : Nat, x &&& 15 = x % 16 := fun x => Nat.and_pow_two_sub_one_eq_mod x 4
  rw [h1, h2]
  show (hunter + 4 + c % 8) % 16 % 256 = (hunter + 4 + c % 8) % 16
  omega

/-- C10: for every game state with `hunter` below 16, every counter value `c1`
read for the deer position (and `c2` read by `GAME_update`), and a
`DLY_MS_TIME` for which the start speed fits the 32-bit variable, `GAME_reset`
leaves `hunter` unchanged, sets `deer = (hunter + 4 + c1 % 8) % NEO_COUNT`,
inverts the direction flag (it becomes 0 when it was not 0 and 1 when it was
0) and sets `speed = GAME_SPEED_START * DLY_MS_TIME`. -/
theorem GAME_reset_contract (D c1 c2 : Nat) (g : Game) (hh : g.hunter < NEO_COUNT)
    (hD : GAME_SPEED_START * D < 2 ^ 32) :
    (GAME_reset D c1 c2 g).hunter = g.hunter ∧
    (GAME_reset D c1 c2 g).deer = (g.hunter + 4 + c1 % 8) % NEO_COUNT ∧
    ((GAME_reset D c1 c2 g).dir = 0 ↔ g.dir ≠ 0) ∧
    ((GAME_reset D c1 c2 g).dir = 1 ↔ g.dir = 0) ∧
    (GAME_reset D c1 c2 g).speed = GAME_SPEED_START * D := by
  obtain ⟨h1, h2, h3, h4⟩ := GAME_reset_fields D c1 c2 g
  refine ⟨h1, ?_, ?_, ?_, ?_⟩
  · rw [h2, next_deer_eq _ _ hh]
  · rw [h3]; unfold lnot; by_cases hd : g.dir = 0 <;> simp [hd]
  · rw [h3]; unfold lnot; by_cases hd : g.dir = 0 <;> simp [hd]
  · rw [h4, Nat.mod_eq_of_lt hD]

/-- Instance of C9: a run with three poll iterations. -/
theorem hunter_deer_in_range_witness :
    (main_poll 8000 5 9 [sample_poll, sample_poll, sample_poll]).hunter < NEO_COUNT ∧
    (main_poll 8000 5 9 [sample_poll, sample_poll, sample_poll]).deer < NEO_COUNT :=
  hunter_deer_in_range.2.1 8000 5 9 [sample_poll, sample_poll, sample_poll]

/-- Instance of C10 at the sample state with 8000 counts per millisecond. -/
theorem GAME_reset_contract_witness :
    (GAME_reset 8000 13 77 sample_game).hunter = sample_game.hunter ∧
    (GAME_reset 8000 13 77 sample_game).deer = (sample_game.hunter + 4 + 13 % 8) % NEO_COUNT ∧
    ((GAME_reset 8000 13 77 sample_game).dir = 0 ↔ sample_game.dir ≠ 0) ∧
    ((GAME_reset 8000 13 77 sample_game).dir = 1 ↔ sample_game.dir = 0) ∧
    (GAME_reset 8000 13 77 sample_game).speed = GAME_SPEED_START * 8000 :=
  GAME_reset_contract 8000 13 77 sample_game (by decide) (by decide)

theorem poll_step_speed (D : Nat) (p : Poll) (g : Game) :
    (poll_step D p g).speed = g.speed ∨
    (poll_step D p g).speed = (GAME_SPEED_START * D) % 2 ^ 32 := by
  unfold poll_step
  split
  · split
    · exact Or.inr rfl
    · exact Or.inl rfl
  · exact Or.inl rfl

theorem quiet_poll (D : Nat) (p : Poll) (g : Game) (hk : p.key = false) :
    poll D p g = poll_step D p g := by
  unfold poll poll_key
  rw [hk]
  rfl

theorem quiet_run_speed (D : Nat) (ps : List Poll) (hq : ∀ p ∈ ps, p.key = false) :
    ∀ g : Game, g.speed = (GAME_SPEED_START * D) % 2 ^ 32 →
      (ps.foldl (fun g p => poll D p g) g).speed = (GAME_SPEED_START * D) % 2 ^ 32 := by
  induction ps with
  | nil => intro g h; exact h
  | cons p ps ih =>
    intro g h
    apply ih (fun q hq1 => hq q (List.mem_cons_of_mem p hq1))
    show (poll D p g).speed = _
    rw [quiet_poll D p g (hq p (List.mem_cons_self p ps))]
    rcases poll_step_speed D p g with h1 | h1
    · rw [h1, h]
    · exact h1

/-- C11: let `g1` be the game after the initial or any other `GAME_reset`
followed by any number of poll iterations without a button press, with a
`DLY_MS_TIME` for which the start speed `S0 = GAME_SPEED_START * DLY_MS_TIME`
fits 32 bits; its speed is `S0`.  In the next iteration with the button read
pressed, let `g2` be the state after the tick step.  If the hunter stands on
the deer there (a successful catch) the iteration ends with
`speed = S0 - GAME_SPEED_INC * DLY_MS_TIME`; if it does not (a false start)
the iteration ends in the state `GAME_reset` produces from `g2`: speed `S0`,
direction flipped, deer newly placed, hunter unchanged. -/
theorem catch_and_false_start (D c1 c2 : Nat) (g0 g1 g2 : Game) (ps : List Poll) (p : Poll)
    (hD : GAME_SPEED_START * D < 2 ^ 32) (hq : ∀ q ∈ ps, q.key = false)
    (hg1 : g1 = ps.foldl (fun g q => poll D q g) (GAME_reset D c1 c2 g0))
    (hg2 : g2 = poll_step D p g1) (hp : p.key = true) :
    g1.speed = GAME_SPEED_START * D ∧ g2.speed = GAME_SPEED_START * D ∧
    (g2.hunter = g2.deer →
      (poll D p g1).speed = GAME_SPEED_START * D - GAME_SPEED_INC * D ∧
      (poll D p g1).speed + GAME_SPEED_INC * D = GAME_SPEED_START * D) ∧
    (g2.hunter ≠ g2.deer →
      poll D p g1 = GAME_reset D p.cnt3 p.cnt4 g2 ∧
      (poll D p g1).speed = GAME_SPEED_START * D ∧
      (poll D p g1).dir = lnot g2.dir ∧
      (poll D p g1).deer = next_deer g2.hunter p.cnt3 ∧
      (poll D p g1).hunter = g2.hunter) := by
  have hmod : (GAME_SPEED_START * D) % 2 ^ 32 = GAME_SPEED_START * D := Nat.mod_eq_of_lt hD
  have h1 : g1.speed = GAME_SPEED_START * D := by
    rw [hg1, quiet_run_speed D ps hq _ rfl, hmod]
  have h2 : g2.speed = GAME_SPEED_START * D := by
    rw [hg2]
    rcases poll_step_speed D p g1 with h | h
    · rw [h, h1]
    · rw [h, hmod]
  have hpoll : poll D p g1 = poll_key D p g2 := by rw [hg2]; rfl
  refine ⟨h1, h2, ?_, ?_⟩
  · intro he
    have hc : poll_key D p g2 = GAME_catch D p.cnt3 p.cnt4 g2 := by
      unfold poll_key; rw [hp]; simp [he]
    have hs : (GAME_catch D p.cnt3 p.cnt4 g2).speed =
        (g2.speed + 2 ^ 32 - (GAME_SPEED_INC * D) % 2 ^ 32) % 2 ^ 32 := rfl
    have hle : GAME_SPEED_INC * D ≤ GAME_SPEED_START * D :=
      Nat.mul_le_mul_right D (by decide)
    rw [hpoll, hc, hs, h2]
    omega
  · intro hne
    have hc : poll_key D p g2 = GAME_reset D p.cnt3 p.cnt4 g2 := by
      unfold poll_key; rw [hp]; simp [hne]
    rw [hpoll, hc]
    exact ⟨rfl, hmod, rfl, rfl, rfl⟩

/-- Instance of C11: initial reset, three quiet steps, then a press in the
iteration in which the hunter lands on the deer (`DLY_MS_TIME = 8000`). -/
theorem catch_and_false_start_witness :
    (poll_step 8000 (timed_poll 3 true)
        (main_poll 8000 0 0 (timed_run [false, false, false]))).hunter =
      (poll_step 8000 (timed_poll 3 true)
        (main_poll 8000 0 0 (timed_run [false, false, false]))).deer ∧
    (poll 8000 (timed_poll 3 true) (main_poll 8000 0 0 (timed_run [false, false, false]))).speed =
      GAME_SPEED_START * 8000 - GAME_SPEED_INC * 8000 :=
  ⟨by decide!,
    ((catch_and_false_start 8000 0 0 Game.init _ _ (timed_run [false, false, false])
      (timed_poll 3 true) (by decide) (by decide) rfl rfl rfl).2.2.1 (by decide!)).1⟩

theorem NEO_sendColor_length (c : Nat) : (NEO_sendColor c).length = 3 := rfl

theorem GAME_frame_length (g : Game) : (GAME_frame g).length = 3 * NEO_COUNT := by
  unfold GAME_frame
  rw [flatMap_length_const _ 3 _ (fun x _ => NEO_sendColor_length _), List.length_range]

theorem GAME_pixel (g : Game) (i : Nat) (hi : i < NEO_COUNT) :
    pixel_bytes (GAME_frame g) i =
      if i = g.hunter then [0x3f, 0, 0]
      else if i = g.deer then [0, 0x3f, 0]
      else [0, 0, 0] := by
  unfold pixel_bytes GAME_frame
  rw [range_flatMap_block (fun i => NEO_sendColor (GAME_color g i)) 3
    (fun j => NEO_sendColor_length _) NEO_COUNT i hi]
  unfold GAME_color
  by_cases h1 : i = g.hunter
  · rw [if_pos h1, if_pos h1]; rfl
  · rw [if_neg h1, if_neg h1]
    by_cases h2 : i = g.deer
    · rw [if_pos h2, if_pos h2]; rfl
    · rw [if_neg h2, if_neg h2]; rfl

/-- C14 as stated fails when the hunter stands on the deer: in the frame of
the state with `hunter = deer = 5` the deer pixel carries the bytes
`0x3f, 0, 0` (green), not `0, 0x3f, 0` (red). -/
theorem GAME_update_deer_under_hunter :
    caught_game.hunter < NEO_COUNT ∧ caught_game.deer < NEO_COUNT ∧
    pixel_bytes (GAME_frame caught_game) caught_game.deer = [0x3f, 0, 0] ∧
    pixel_bytes (GAME_frame caught_game) caught_game.deer ≠ [0, 0x3f, 0] := by
  refine ⟨by decide, by decide, by decide, by decide⟩

/-- C14 (amended): for every hunter and deer index below `NEO_COUNT`,
`GAME_update` transmits a frame of exactly `NEO_COUNT` pixels (three bytes
each, in G, R, B wire order) in which the hunter pixel is green
(`0x3f, 0, 0`), the deer pixel is red (`0, 0x3f, 0`) when the deer is not on
the hunter pixel (when it is, that pixel is green: the hunter test comes
first), and every other pixel is black (`0, 0, 0`). -/
theorem GAME_update_frame (cnt : Nat) (g : Game) (hh : g.hunter < NEO_COUNT)
    (hd : g.deer < NEO_COUNT) :
    (GAME_update cnt g).out = g.out ++ GAME_frame g ∧
    (GAME_frame g).length = 3 * NEO_COUNT ∧
    pixel_bytes (GAME_frame g) g.hunter = [0x3f, 0, 0] ∧
    (g.deer ≠ g.hunter → pixel_bytes (GAME_frame g) g.deer = [0, 0x3f, 0]) ∧
    (g.deer = g.hunter → pixel_bytes (GAME_frame g) g.deer = [0x3f, 0, 0]) ∧
    (∀ i, i < NEO_COUNT → i ≠ g.hunter → i ≠ g.deer →
      pixel_bytes (GAME_frame g) i = [0, 0, 0]) := by
  refine ⟨rfl, GAME_frame_length g, ?_, ?_, ?_, ?_⟩
  · rw [GAME_pixel g _ hh, if_pos rfl]
  · intro hne
    rw [GAME_pixel g _ hd, if_neg hne, if_pos rfl]
  · intro he
    rw [GAME_pixel g _ hd, if_pos he]
  · intro i hi h1 h2
    rw [GAME_pixel g i hi, if_neg h1, if_neg h2]

/-- Instance of the amended C14 at the sample state (hunter 14, deer 3). -/
theorem GAME_update_frame_witness :
    (GAME_update 77 sample_game).out = sample_game.out ++ GAME_frame sample_game ∧
    (GAME_frame sample_game).length = 3 * NEO_COUNT ∧
    pixel_bytes (GAME_frame sample_game) sample_game.hunter = [0x3f, 0, 0] ∧
    (sample_game.deer ≠ sample_game.hunter →
      pixel_bytes (GAME_frame sample_game) sample_game.deer = [0, 0x3f, 0]) ∧
    (sample_game.deer = sample_game.hunter →
      pixel_bytes (GAME_frame sample_game) sample_game.deer = [0x3f, 0, 0]) ∧
    (∀ i, i < NEO_COUNT → i ≠ sample_game.hunter → i ≠ sample_game.deer →
      pixel_bytes (GAME_frame sample_game) i = [0, 0, 0]) :=
  GAME_update_frame 77 sample_game (by decide) (by decide)

/-- C20: `GAME_update` at counter value `t0` sets `end = (t0 + speed) % 2 ^ 32`;
for every speed below `2 ^ 31` and every elapsed count `e < speed + 2 ^ 31`,
the step test `(int32_t)(STK->CNT - end) >= 0` at the counter value
`(t0 + e) % 2 ^ 32` is true if and only if `e ≥ speed`, whether or not the
counter wrapped in between. -/
theorem step_test_wraparound (t0 e : Nat) (g : Game) (hs : g.speed < 2 ^ 31)
    (he : e < g.speed + 2 ^ 31) :
    (GAME_update t0 g).end_ = (t0 + g.speed) % 2 ^ 32 ∧
    (step_due ((t0 + e) % 2 ^ 32) (GAME_update t0 g).end_ = true ↔ g.speed ≤ e) := by
  refine ⟨rfl, ?_⟩
  show step_due ((t0 + e) % 2 ^ 32) ((t0 + g.speed) % 2 ^ 32) = true ↔ g.speed ≤ e
  unfold step_due
  rw [decide_eq_true_iff]
  omega

/-- Instance of C20 with the counter wrapping between `GAME_update` and the
test: `t0 = 2 ^ 32 - 1000`, `speed = e = 2048000`. -/
theorem step_test_wraparound_witness :
    sample_game.speed < 2 ^ 31 ∧ 2048000 < sample_game.speed + 2 ^ 31 ∧
    step_due ((4294966296 + 2048000) % 2 ^ 32) (GAME_update 4294966296 sample_game).end_ = true :=
  ⟨by decide, by decide,
    (step_test_wraparound 4294966296 2048000 sample_game (by decide) (by decide)).2.mpr
      (by decide)⟩

theorem GAME_catch_fields (D c3 c4 : Nat) (g : Game) :
    (GAME_catch D c3 c4 g).hunter = g.hunter ∧
    (GAME_catch D c3 c4 g).deer = next_deer g.hunter c3 ∧
    (GAME_catch D c3 c4 g).dir = lnot g.dir ∧
    (GAME_catch D c3 c4 g).speed =
      (g.speed + 2 ^ 32 - (GAME_SPEED_INC * D) % 2 ^ 32) % 2 ^ 32 :=
  ⟨rfl, rfl, rfl, rfl⟩

theorem GAME_catch_wraps_at_zero (D c3 c4 : Nat) (g : Game) (hD : 0 < D)
    (h32 : GAME_SPEED_INC * D < 2 ^ 32) (hs : g.speed = 0) :
    (GAME_catch D c3 c4 g).speed = 2 ^ 32 - GAME_SPEED_INC * D ∧
    g.speed < (GAME_catch D c3 c4 g).speed := by
  have h1 := (GAME_catch_fields D c3 c4 g).2.2.2
  have h2 : (GAME_SPEED_INC * D) % 2 ^ 32 = GAME_SPEED_INC * D := Nat.mod_eq_of_lt h32
  have h3 : 0 < GAME_SPEED_INC * D := Nat.mul_pos (by decide) hD
  rw [h1, hs, h2]
  omega

/-- C12 as stated fails at the 33rd consecutive catch: with
`DLY_MS_TIME = 8000` and the button read pressed each time the hunter lands on
the deer, the speed is 64000 after 31 catches and 0 after 32; the 33rd press is
again a catch (hunter on deer after the tick step, button read pressed) and the
unsigned subtraction wraps: the speed becomes `2 ^ 32 - 64000`, larger than
before the catch. -/
theorem speed_wraps_on_catch_33 :
    GAME_SPEED_START * 8000 < 2 ^ 32 ∧
    (main_poll 8000 0 0 (timed_run (catch_keys 31))).speed = 64000 ∧
    (main_poll 8000 0 0 (timed_run (catch_keys 32))).speed = 0 ∧
    (main_poll 8000 0 0 (timed_run (catch_keys 33))).speed = 2 ^ 32 - 64000 ∧
    (timed_run (catch_keys 33)).getLast? = some (timed_poll 259 true) ∧
    (poll_step 8000 (timed_poll 259 true)
        (main_poll 8000 0 0 (timed_run (catch_keys 33)).dropLast)).hunter =
      (poll_step 8000 (timed_poll 259 true)
        (main_poll 8000 0 0 (timed_run (catch_keys 33)).dropLast)).deer ∧
    (poll_step 8000 (timed_poll 259 true)
        (main_poll 8000 0 0 (timed_run (catch_keys 33)).dropLast)).speed = 0 ∧
    (poll 8000 (timed_poll 259 true)
        (main_poll 8000 0 0 (timed_run (catch_keys 33)).dropLast)).speed = 2 ^ 32 - 64000 := by
  refine ⟨by decide, by decide!, by decide!, by decide!, by decide!, by decide!, by decide!,
    by decide!⟩

theorem streak_append (D : Nat) (p : Poll) : ∀ (ps : List Poll) (g : Game) (n : Nat),
    streak D (ps ++ [p]) g n =
      streak_poll D p (ps.foldl (fun g p => poll D p g) g) (streak D ps g n) := by
  intro ps
  induction ps with
  | nil => intro g n; rfl
  | cons q qs ih => intro g n; exact ih (poll D q g) (streak_poll D q g n)

theorem speed_inv_step (D : Nat) (p : Poll) (g : Game) (n : Nat)
    (h : g.speed = (GAME_SPEED_START * D + n * (2 ^ 32 - GAME_SPEED_INC * D)) % 2 ^ 32) :
    (poll_step D p g).speed =
      (GAME_SPEED_START * D +
        (if step_due p.cnt0 g.end_ = true ∧ g.hunter = g.deer then 0 else n) *
          (2 ^ 32 - GAME_SPEED_INC * D)) % 2 ^ 32 := by
  unfold poll_step
  by_cases h1 : step_due p.cnt0 g.end_ = true
  · by_cases h2 : g.hunter = g.deer
    · rw [if_pos h1, if_pos h2, if_pos ⟨h1, h2⟩, Nat.zero_mul, Nat.add_zero]
      rfl
    · rw [if_pos h1, if_neg h2, if_neg (fun hh => h2 hh.2)]
      exact h
  · rw [if_neg h1, if_neg (fun hh => h1 hh.1)]
    exact h

theorem speed_inv_key (D : Nat) (p : Poll) (g : Game) (n : Nat)
    (h32 : GAME_SPEED_START * D < 2 ^ 32)
    (h : g.speed = (GAME_SPEED_START * D + n * (2 ^ 32 - GAME_SPEED_INC * D)) % 2 ^ 32) :
    (poll_key D p g).speed =
      (GAME_SPEED_START * D +
        (if p.key then (if g.hunter = g.deer then n + 1 else 0) else n) *
          (2 ^ 32 - GAME_SPEED_INC * D)) % 2 ^ 32 := by
  unfold poll_key
  by_cases hk : p.key = true
  · by_cases h2 : g.hunter = g.deer
    · rw [if_pos hk, if_pos h2, if_pos hk, if_pos h2, (GAME_catch_fields D p.cnt3 p.cnt4 g).2.2.2,
        Nat.succ_mul, h]
      have hS : GAME_SPEED_START = 256 := rfl
      have hI : GAME_SPEED_INC = 8 := rfl
      rw [hS] at h32 ⊢
      rw [hI]
      generalize n * (2 ^ 32 - 8 * D) = x
      omega
    · rw [if_pos hk, if_neg h2, if_pos hk, if_neg h2, Nat.zero_mul, Nat.add_zero]
      rfl
  · rw [if_neg hk, if_neg hk]
    exact h

theorem speed_inv_poll (D : Nat) (p : Poll) (g : Game) (n : Nat)
    (h32 : GAME_SPEED_START * D < 2 ^ 32)
    (h : g.speed = (GAME_SPEED_START * D + n * (2 ^ 32 - GAME_SPEED_INC * D)) % 2 ^ 32) :
    (poll D p g).speed =
      (GAME_SPEED_START * D + streak_poll D p g n * (2 ^ 32 - GAME_SPEED_INC * D)) % 2 ^ 32 :=
  speed_inv_key D p (poll_step D p g) _ h32 (speed_inv_step D p g n h)

theorem speed_inv_run (D : Nat) (h32 : GAME_SPEED_START * D < 2 ^ 32) :
    ∀ (ps : List Poll) (g : Game) (n : Nat),
    g.speed = (GAME_SPEED_START * D + n * (2 ^ 32 - GAME_SPEED_INC * D)) % 2 ^ 32 →
    (ps.foldl (fun g p => poll D p g) g).speed =
      (GAME_SPEED_START * D + streak D ps g n * (2 ^ 32 - GAME_SPEED_INC * D)) % 2 ^ 32 := by
  intro ps
  induction ps with
  | nil => intro g n h; exact h
  | cons q qs ih =>
    intro g n h
    exact ih (poll D q g) (streak_poll D q g n) (speed_inv_poll D q g n h32 h)

theorem speed_inv_main (D c1 c2 : Nat) (h32 : GAME_SPEED_START * D < 2 ^ 32)
    (ps : List Poll) :
    (main_poll D c1 c2 ps).speed =
      (GAME_SPEED_START * D +
        streak D ps (GAME_reset D c1 c2 Game.init) 0 * (2 ^ 32 - GAME_SPEED_INC * D)) % 2 ^ 32 :=
  speed_inv_run D h32 ps (GAME_reset D c1 c2 Game.init) 0
    (by rw [Nat.zero_mul, Nat.add_zero]; rfl)

theorem speed_of_streak (D n : Nat) (h32 : GAME_SPEED_START * D < 2 ^ 32) (hn : n ≤ 32) :
    (GAME_SPEED_START * D + n * (2 ^ 32 - GAME_SPEED_INC * D)) % 2 ^ 32 =
      (GAME_SPEED_START - GAME_SPEED_INC * n) * D := by
  have hS : GAME_SPEED_START = 256 := rfl
  have hI : GAME_SPEED_INC = 8 := rfl
  rw [hS] at h32 ⊢
  rw [hI]
  have e1 : n * (2 ^ 32 - 8 * D) + 8 * (n * D) = n * 2 ^ 32 := by
    have : 8 * D ≤ 2 ^ 32 := by omega
    calc n * (2 ^ 32 - 8 * D) + 8 * (n * D) = n * ((2 ^ 32 - 8 * D) + 8 * D) := by ring
      _ = n * 2 ^ 32 := by rw [Nat.sub_add_cancel this]
  have e2 : (256 - 8 * n) * D + 8 * (n * D) = 256 * D := by
    have : 8 * n ≤ 256 := by omega
    calc (256 - 8 * n) * D + 8 * (n * D) = ((256 - 8 * n) + 8 * n) * D := by ring
      _ = 256 * D := by rw [Nat.sub_add_cancel this]
  have e3 : n * D ≤ 32 * D := Nat.mul_le_mul_right D hn
  generalize n * (2 ^ 32 - 8 * D) = x at e1 ⊢
  generalize (256 - 8 * n) * D = y at e2 ⊢
  generalize n * D = z at e1 e2 e3
  omega


/-- C12 (amended): in every state `main` reaches (any counter reads and button
readings, `DLY_MS_TIME = D > 0` with `GAME_SPEED_START * D < 2 ^ 32`), a
successful catch (button read pressed, hunter on the deer after the tick step)
leaves the speed strictly smaller than before exactly when the speed before is
at least `GAME_SPEED_INC * D`, and then the speed is lowered by exactly that
amount.  This is the case for each of the first 32 consecutive catches after a
`GAME_reset`: catch number `m ≤ 32` takes the speed from
`(GAME_SPEED_START - GAME_SPEED_INC * (m - 1)) * D` to
`(GAME_SPEED_START - GAME_SPEED_INC * m) * D`.  Catch number 33 finds the
speed 0, and the unsigned subtraction, which has no floor, wraps it to
`2 ^ 32 - GAME_SPEED_INC * D`; after a wrapping catch the step test
`(int32_t)(STK->CNT - end) >= 0` holds at once. -/
theorem catch_lowers_speed_until_zero (D c1 c2 : Nat) (ps : List Poll) (p : Poll)
    (hD : 0 < D) (h32 : GAME_SPEED_START * D < 2 ^ 32) (hk : p.key = true)
    (hc : (poll_step D p (main_poll D c1 c2 ps)).hunter =
      (poll_step D p (main_poll D c1 c2 ps)).deer) :
    poll D p (main_poll D c1 c2 ps) =
      GAME_catch D p.cnt3 p.cnt4 (poll_step D p (main_poll D c1 c2 ps)) ∧
    1 ≤ streak D (ps ++ [p]) (GAME_reset D c1 c2 Game.init) 0 ∧
    ((poll D p (main_poll D c1 c2 ps)).speed < (poll_step D p (main_poll D c1 c2 ps)).speed ↔
      GAME_SPEED_INC * D ≤ (poll_step D p (main_poll D c1 c2 ps)).speed) ∧
    (GAME_SPEED_INC * D ≤ (poll_step D p (main_poll D c1 c2 ps)).speed →
      (poll D p (main_poll D c1 c2 ps)).speed =
        (poll_step D p (main_poll D c1 c2 ps)).speed - GAME_SPEED_INC * D) ∧
    ((poll_step D p (main_poll D c1 c2 ps)).speed < GAME_SPEED_INC * D →
      (poll D p (main_poll D c1 c2 ps)).speed =
        (poll_step D p (main_poll D c1 c2 ps)).speed + 2 ^ 32 - GAME_SPEED_INC * D ∧
      (poll_step D p (main_poll D c1 c2 ps)).speed < (poll D p (main_poll D c1 c2 ps)).speed ∧
      step_due p.cnt4 (poll D p (main_poll D c1 c2 ps)).end_ = true) ∧
    (streak D (ps ++ [p]) (GAME_reset D c1 c2 Game.init) 0 ≤ 32 →
      (poll_step D p (main_poll D c1 c2 ps)).speed =
        (GAME_SPEED_START -
          GAME_SPEED_INC * (streak D (ps ++ [p]) (GAME_reset D c1 c2 Game.init) 0 - 1)) * D ∧
      (poll D p (main_poll D c1 c2 ps)).speed =
        (GAME_SPEED_START -
          GAME_SPEED_INC * streak D (ps ++ [p]) (GAME_reset D c1 c2 Game.init) 0) * D ∧
      (poll D p (main_poll D c1 c2 ps)).speed <
        (poll_step D p (main_poll D c1 c2 ps)).speed) ∧
    (streak D (ps ++ [p]) (GAME_reset D c1 c2 Game.init) 0 = 33 →
      (poll_step D p (main_poll D c1 c2 ps)).speed = 0 ∧
      (poll D p (main_poll D c1 c2 ps)).speed = 2 ^ 32 - GAME_SPEED_INC * D ∧
      (poll_step D p (main_poll D c1 c2 ps)).speed <
        (poll D p (main_poll D c1 c2 ps)).speed) := by
  have hS : GAME_SPEED_START = 256 := rfl
  have hI : GAME_SPEED_INC = 8 := rfl
  have hinv := speed_inv_main D c1 c2 h32 ps
  have hm : streak D (ps ++ [p]) (GAME_reset D c1 c2 Game.init) 0 =
      streak_poll D p (main_poll D c1 c2 ps) (streak D ps (GAME_reset D c1 c2 Game.init) 0) :=
    streak_append D p ps _ 0
  rw [hm]
  generalize streak D ps (GAME_reset D c1 c2 Game.init) 0 = n at hinv
  generalize main_poll D c1 c2 ps = g at hinv hc
  have hB := speed_inv_step D p g n hinv
  have hsp : streak_poll D p g n =
      (if step_due p.cnt0 g.end_ = true ∧ g.hunter = g.deer then 0 else n) + 1 := by
    unfold streak_poll
    simp only [hk, hc, if_true]
  rw [hsp]
  generalize (if step_due p.cnt0 g.end_ = true ∧ g.hunter = g.deer then 0 else n) = n1 at hB
  have hpoll : poll D p g = GAME_catch D p.cnt3 p.cnt4 (poll_step D p g) := by
    show poll_key D p (poll_step D p g) = _
    unfold poll_key
    rw [if_pos hk, if_pos hc]
  have hA : (poll D p g).speed =
      ((poll_step D p g).speed + 2 ^ 32 - (GAME_SPEED_INC * D) % 2 ^ 32) % 2 ^ 32 := by
    rw [hpoll]; rfl
  have hE : (poll D p g).end_ = (p.cnt4 + (poll D p g).speed) % 2 ^ 32 := by
    rw [hpoll]; rfl
  have hlt : (poll_step D p g).speed < 2 ^ 32 := by
    rw [hB]; exact Nat.mod_lt _ (by decide)
  have hlow : ∀ k, k ≤ 32 →
      (GAME_SPEED_START * D + k * (2 ^ 32 - GAME_SPEED_INC * D)) % 2 ^ 32 =
        (GAME_SPEED_START - GAME_SPEED_INC * k) * D := fun k hk => speed_of_streak D k h32 hk
  generalize (poll_step D p g).speed = B at hB hA hlt
  generalize (poll D p g).speed = A at hA hE
  generalize (poll D p g).end_ = E at hE
  rw [hI] at hA hB hlow ⊢
  rw [hS] at h32 hB hlow ⊢
  refine ⟨hpoll, by omega, by omega, by omega, ?_, ?_, ?_⟩
  · intro hw
    refine ⟨by omega, by omega, ?_⟩
    unfold step_due
    rw [decide_eq_true_iff]
    omega
  · intro hle
    have hn1 : n1 ≤ 31 := by omega
    have e1 : B = (256 - 8 * n1) * D := by rw [hB]; exact hlow n1 (by omega)
    have e2 : 8 * D ≤ (256 - 8 * n1) * D := Nat.mul_le_mul_right D (by omega)
    have e3 : (256 - 8 * (n1 + 1)) * D + 8 * D = (256 - 8 * n1) * D := by
      have : 256 - 8 * n1 = (256 - 8 * (n1 + 1)) + 8 := by omega
      rw [this, Nat.add_mul]
    rw [Nat.add_sub_cancel]
    refine ⟨e1, ?_, ?_⟩ <;> omega
  · intro h33
    have hn1 : n1 = 32 := by omega
    have e1 : B = 0 := by
      rw [hB, hn1, hlow 32 (by omega)]
      simp
    refine ⟨e1, ?_, ?_⟩ <;> omega

/-- Instance of the amended C12: catch number 32 of the sample run (button
read pressed in iteration 255, hunter on the deer) takes the speed from 64000
to 0. -/
theorem catch_lowers_speed_until_zero_witness :
    (timed_poll 255 true).key = true ∧
    (poll_step 8000 (timed_poll 255 true)
        (main_poll 8000 0 0 (timed_run (catch_keys 32)).dropLast)).hunter =
      (poll_step 8000 (timed_poll 255 true)
        (main_poll 8000 0 0 (timed_run (catch_keys 32)).dropLast)).deer ∧
    streak 8000 ((timed_run (catch_keys 32)).dropLast ++ [timed_poll 255 true])
      (GAME_reset 8000 0 0 Game.init) 0 = 32 ∧
    (poll_step 8000 (timed_poll 255 true)
        (main_poll 8000 0 0 (timed_run (catch_keys 32)).dropLast)).speed = 64000 ∧
    (poll 8000 (timed_poll 255 true)
        (main_poll 8000 0 0 (timed_run (catch_keys 32)).dropLast)).speed <
      (poll_step 8000 (timed_poll 255 true)
        (main_poll 8000 0 0 (timed_run (catch_keys 32)).dropLast)).speed :=
  ⟨rfl, by decide!, by decide!, by decide!,
    ((catch_lowers_speed_until_zero 8000 0 0 (timed_run (catch_keys 32)).dropLast
      (timed_poll 255 true) (by decide) (by decide) rfl (by decide!)).2.2.2.2.2.1
        (by decide!)).2.2⟩

end NeoHunt

namespace NeoDemo

/-- C16: for every brightness level `b` from 0 to 6 the loop body of
`NEO_show` makes the same single `NEO_writeColor` call for the hues 63 and 64,
for the hues 127 and 128, and for the hues 191 and 0: the gamma hue wheel is
continuous across its three phase boundaries, the wrap-around included. -/
theorem hue_wheel_continuous :
    ∀ b : Fin 7,
      NEO_show_body 63 b.val = NEO_show_body 64 b.val ∧
      NEO_show_body 127 b.val = NEO_show_body 128 b.val ∧
      NEO_show_body 191 b.val = NEO_show_body 0 b.val ∧
      (NEO_show_body 63 b.val).length = 1 ∧ (NEO_show_body 127 b.val).length = 1 ∧
      (NEO_show_body 191 b.val).length = 1 := by
  decide

theorem show_fields (a : Anim) :
    (Anim.show a).state = a.state ∧ (Anim.show a).counter = a.counter ∧
    (Anim.show a).mode = a.mode ∧ (Anim.show a).strip = a.strip ∧
    (Anim.show a).hue1 = a.hue1 ∧ (Anim.show a).hue2 = a.hue2 ∧
    (Anim.show a).ptr1 = a.ptr1 ∧ (Anim.show a).ptr2 = a.ptr2 ∧
    (Anim.show a).rnval = a.rnval ∧
    (Anim.show a).out = a.out ++ NEO_show_bytes a.strip :=
  ⟨rfl, rfl, rfl, rfl, rfl, rfl, rfl, rfl, rfl, rfl⟩

theorem animate_keeps (ltr : Bool) (a : Anim) :
    (animate ltr a).counter = a.counter ∧ (animate ltr a).mode = a.mode := by
  unfold animate
  split <;> simp only [show_fields, and_self]

theorem animate_state_lt (ltr : Bool) (a : Anim) (h : a.state < 8) :
    (animate ltr a).state < 8 := by
  unfold animate
  split <;> (try simp only [show_fields]) <;> omega


theorem advance_fields (key : Bool) (b : Anim) :
    (advance key b).counter = (switching key b).counter ∧
    (advance key b).mode = (switching key b).mode ∧
    (advance key b).strip = (switching key b).strip ∧
    (advance key b).out = (switching key b).out := by
  unfold advance
  generalize switching key b = c
  by_cases h : c.state > 7
  · simp only [h, if_true, and_self]
  · simp only [h, if_false, and_self]

theorem switching_auto (key : Bool) (b : Anim) (hm : b.mode = 0) :
    switching key b =
      if (b.counter + 255) % 256 = 0 then
        { b with counter := NEO_AUTO_COUNT, state := (b.state + 1) % 256 }
      else { b with counter := (b.counter + 255) % 256 } := by
  unfold switching
  rw [if_neg (by rw [hm]; exact fun h => h rfl)]

theorem auto_iter (ltr key : Bool) (a : Anim) (hm : a.mode = 0) :
    (loop_iter ltr key a).mode = 0 ∧
    (loop_iter ltr key a).counter =
      (if (a.counter + 255) % 256 = 0 then NEO_AUTO_COUNT else (a.counter + 255) % 256) ∧
    loop_iter ltr key a = loop_iter ltr false a := by
  obtain ⟨hc, hm1⟩ := animate_keeps ltr a
  rw [hm] at hm1
  have hsw : ∀ k, switching k (animate ltr a) = switching false (animate ltr a) := by
    intro k
    rw [switching_auto k _ hm1, switching_auto false _ hm1]
  have heq : loop_iter ltr key a = loop_iter ltr false a := by
    unfold loop_iter advance
    rw [hsw key]
  refine ⟨?_, ?_, heq⟩
  · unfold loop_iter
    rw [(advance_fields key _).2.1, switching_auto key _ hm1]
    split <;> exact hm1
  · unfold loop_iter
    rw [(advance_fields key _).1, switching_auto key _ hm1, hc]
    split <;> rfl

theorem main_run_snoc (ltr boot_key : Bool) (u : Nat × Nat × Nat × Nat) (keys : List Bool)
    (key : Bool) :
    main_run ltr boot_key u (keys ++ [key]) = loop_iter ltr key (main_run ltr boot_key u keys) := by
  unfold main_run
  rw [List.foldl_append]
  rfl

theorem auto_counter (ltr : Bool) (u : Nat × Nat × Nat × Nat) (keys : List Bool) :
    (main_run ltr false u keys).mode = 0 ∧
    (main_run ltr false u keys).counter = NEO_AUTO_COUNT - keys.length % NEO_AUTO_COUNT := by
  induction keys using List.reverseRecOn with
  | nil => exact ⟨rfl, rfl⟩
  | append_singleton l k ih =>
    obtain ⟨hm, hc⟩ := ih
    obtain ⟨h1, h2, _⟩ := auto_iter ltr k _ hm
    rw [main_run_snoc]
    refine ⟨h1, ?_⟩
    rw [h2, hc, List.length_append, List.length_singleton]
    unfold NEO_AUTO_COUNT
    have := Nat.mod_lt l.length (show 0 < 76 by decide)
    split <;> omega

theorem auto_keys_irrelevant (ltr : Bool) (u : Nat × Nat × Nat × Nat) (keys : List Bool) :
    main_run ltr false u keys = main_run ltr false u (List.replicate keys.length false) := by
  induction keys using List.reverseRecOn with
  | nil => rfl
  | append_singleton l k ih =>
    rw [main_run_snoc, List.length_append, List.length_singleton, List.replicate_succ',
      main_run_snoc, ← ih]
    exact (auto_iter ltr k _ (auto_counter ltr u l).1).2.2

/-- C19: in automatic mode (button not read pressed at start-up), at the start
of iteration number `keys.length + 1` of the main loop the mode is still
automatic and the tick counter is `NEO_AUTO_COUNT - keys.length % NEO_AUTO_COUNT`,
hence in `[1, NEO_AUTO_COUNT]`; the animation switching of that iteration
advances the state by one exactly when the iteration number is a multiple of
`NEO_AUTO_COUNT = 76` and leaves it alone otherwise; and the button readings
play no part: the iteration gives the same result for either reading, and the
whole run equals the run with no button ever read pressed. -/
theorem auto_mode_ticks (ltr : Bool) (u : Nat × Nat × Nat × Nat) (keys : List Bool)
    (key : Bool) :
    (main_run ltr false u keys).mode = 0 ∧
    1 ≤ (main_run ltr false u keys).counter ∧
    (main_run ltr false u keys).counter ≤ NEO_AUTO_COUNT ∧
    (main_run ltr false u keys).counter = NEO_AUTO_COUNT - keys.length % NEO_AUTO_COUNT ∧
    NEO_AUTO_COUNT = 76 ∧
    ((keys.length + 1) % NEO_AUTO_COUNT = 0 →
      (switching key (animate ltr (main_run ltr false u keys))).state =
        (animate ltr (main_run ltr false u keys)).state + 1) ∧
    ((keys.length + 1) % NEO_AUTO_COUNT ≠ 0 →
      (switching key (animate ltr (main_run ltr false u keys))).state =
        (animate ltr (main_run ltr false u keys)).state) ∧
    loop_iter ltr key (main_run ltr false u keys) =
      loop_iter ltr (!key) (main_run ltr false u keys) ∧
    main_run ltr false u keys = main_run ltr false u (List.replicate keys.length false) := by
  obtain ⟨hm, hc⟩ := auto_counter ltr u keys
  have hlt := Nat.mod_lt keys.length (show 0 < NEO_AUTO_COUNT by decide)
  have hs : (animate ltr (main_run ltr false u keys)).state < 8 :=
    animate_state_lt ltr _ (main_run_state_lt ltr keys _ (Nat.zero_lt_succ 7))
  obtain ⟨hc1, hm1⟩ := animate_keeps ltr (main_run ltr false u keys)
  rw [hm] at hm1
  have h76 : NEO_AUTO_COUNT = 76 := rfl
  refine ⟨hm, by omega, by omega, hc, h76, ?_, ?_, ?_, auto_keys_irrelevant ltr u keys⟩
  · intro h0
    have hz : ((animate ltr (main_run ltr false u keys)).counter + 255) % 256 = 0 := by
      rw [hc1, hc]
      rw [h76] at h0 hlt ⊢
      omega
    rw [switching_auto key _ hm1, if_pos hz]
    show ((animate ltr (main_run ltr false u keys)).state + 1) % 256 = _
    omega
  · intro h0
    have hz : ((animate ltr (main_run ltr false u keys)).counter + 255) % 256 ≠ 0 := by
      rw [hc1, hc]
      rw [h76] at h0 hlt ⊢
      omega
    rw [switching_auto key _ hm1, if_neg hz]
  · rw [(auto_iter ltr key _ hm).2.2, (auto_iter ltr (!key) _ hm).2.2]

/-- Instance of C19: iteration 76 advances the state, iteration 75 does not. -/
theorem auto_mode_ticks_witness :
    (main_run true false (0, 0, 0, 0) (List.replicate 75 true)).counter = 1 ∧
    (switching true (animate true (main_run true false (0, 0, 0, 0) (List.replicate 75 true)))).state =
      (animate true (main_run true false (0, 0, 0, 0) (List.replicate 75 true))).state + 1 ∧
    (switching true (animate true (main_run true false (0, 0, 0, 0) (List.replicate 74 true)))).state =
      (animate true (main_run true false (0, 0, 0, 0) (List.replicate 74 true))).state :=
  ⟨(auto_mode_ticks true (0, 0, 0, 0) (List.replicate 75 true) true).2.2.2.1,
    (auto_mode_ticks true (0, 0, 0, 0) (List.replicate 75 true) true).2.2.2.2.2.1 (by decide),
    (auto_mode_ticks true (0, 0, 0, 0) (List.replicate 74 true) true).2.2.2.2.2.2.1 (by decide)⟩

theorem set_all (P : Nat → Prop) (l : List Nat) (i v : Nat) (hl : ∀ x ∈ l, P x) (hv : P v) :
    ∀ x ∈ l.set i v, P x := by
  intro x hx
  rcases List.mem_or_eq_of_mem_set hx with h | h
  · exact hl x h
  · rw [h]; exact hv

theorem getD_all (P : Nat → Prop) (l : List Nat) (i : Nat) (hl : ∀ x ∈ l, P x) (h0 : P 0) :
    P (l.getD i 0) := by
  by_cases hi : i < l.length
  · rw [List.getD_eq_getElem l 0 hi]
    exact hl _ (List.getElem_mem hi)
  · rw [List.getD_eq_default l 0 (by omega)]
    exact h0

theorem foldl_inv {α β : Type} (P : α → Prop) (f : α → β → α) (l : List β)
    (hf : ∀ x b, P x → P (f x b)) : ∀ x, P x → P (l.foldl f x) := by
  induction l with
  | nil => intro x h; exact h
  | cons b l ih => intro x h; exact ih _ (hf x b h)

theorem hue_wrap_lt (h : Nat) : hue_wrap (h % 256) < 192 := by
  unfold hue_wrap
  have := Nat.mod_lt h (show 0 < 256 by decide)
  split <;> omega

theorem Safe_set2 (s : Strip) (i j h b : Nat) (hs : s.Safe) (hh : h < 192) (hb : b ≤ 6) :
    Strip.Safe { NEO_hue := s.NEO_hue.set i h, NEO_bright := s.NEO_bright.set j b } := by
  obtain ⟨h1, h2, h3, h4⟩ := hs
  refine ⟨?_, ?_, ?_, ?_⟩
  · show (s.NEO_hue.set i h).length = NEO_COUNT
    rw [List.length_set]; exact h1
  · show (s.NEO_bright.set j b).length = NEO_COUNT
    rw [List.length_set]; exact h2
  · exact set_all (fun x => x < 192) _ _ _ h3 hh
  · exact set_all (fun x => x ≤ 6) _ _ _ h4 hb

theorem Safe_set_hue (s : Strip) (i h : Nat) (hs : s.Safe) (hh : h < 192) :
    Strip.Safe { s with NEO_hue := s.NEO_hue.set i h } := by
  obtain ⟨h1, h2, h3, h4⟩ := hs
  refine ⟨?_, h2, set_all (fun x => x < 192) _ _ _ h3 hh, h4⟩
  show (s.NEO_hue.set i h).length = NEO_COUNT
  rw [List.length_set]; exact h1

theorem Safe_set_bright (s : Strip) (j b : Nat) (hs : s.Safe) (hb : b ≤ 6) :
    Strip.Safe { s with NEO_bright := s.NEO_bright.set j b } := by
  obtain ⟨h1, h2, h3, h4⟩ := hs
  refine ⟨h1, ?_, h3, set_all (fun x => x ≤ 6) _ _ _ h4 hb⟩
  show (s.NEO_bright.set j b).length = NEO_COUNT
  rw [List.length_set]; exact h2

theorem Safe_set (s : Strip) (n h : Nat) (hs : s.Safe) (hh : h < 192) : (NEO_set s n h).Safe :=
  Safe_set2 s n n h 6 hs hh (Nat.le_refl 6)

theorem Safe_apply_sets (calls : List (Nat × Nat)) (hc : ∀ c ∈ calls, SetCallOK c) :
    ∀ s : Strip, s.Safe → (apply_sets calls s).Safe := by
  induction calls with
  | nil => intro s h; exact h
  | cons c l ih =>
    intro s h
    exact ih (fun d hd => hc d (List.mem_cons_of_mem c hd)) _
      (Safe_set s c.1 c.2 h (hc c (List.mem_cons_self c l)).2)

theorem Safe_fadeOut (s : Strip) (hs : s.Safe) : (NEO_fadeOut s).Safe := by
  unfold NEO_fadeOut
  apply foldl_inv Strip.Safe _ _ _ s hs
  intro x i hx
  have hb : x.NEO_bright.getD i 0 ≤ 6 := getD_all (fun y => y ≤ 6) _ _ hx.2.2.2 (by decide)
  split
  · exact Safe_set_bright x i _ hx (by omega)
  · exact hx

theorem Safe_fill (s : Strip) (h : Nat) (hs : s.Safe) (hh : h < 192) : (NEO_fill s h).Safe := by
  unfold NEO_fill
  apply foldl_inv Strip.Safe _ _ _ s hs
  intro x i hx
  exact Safe_set_hue x i h hx hh

theorem Safe_cw (s : Strip) (hs : s.Safe) : (NEO_cw s).Safe := by
  unfold NEO_cw
  have hb := getD_all (fun y => y ≤ 6) _ (NEO_COUNT - 1) hs.2.2.2 (by decide)
  have hh := getD_all (fun y => y < 192) _ (NEO_COUNT - 1) hs.2.2.1 (by decide)
  have hloop : ((List.range' 1 (NEO_COUNT - 1)).reverse.foldl
    (fun s i =>
      { NEO_bright := s.NEO_bright.set i (s.NEO_bright.getD (i - 1) 0),
        NEO_hue := s.NEO_hue.set i (s.NEO_hue.getD (i - 1) 0) }) s).Safe := by
    apply foldl_inv Strip.Safe _ _ _ s hs
    intro x i hx
    exact Safe_set2 x i i _ _ hx (getD_all (fun y => y < 192) _ _ hx.2.2.1 (by decide))
      (getD_all (fun y => y ≤ 6) _ _ hx.2.2.2 (by decide))
  exact Safe_set2 _ 0 0 _ _ hloop hh hb

theorem Safe_drift (s : Strip) (rn : Nat) (hs : s.Safe) : (drift s rn).1.Safe := by
  unfold drift
  apply foldl_inv (fun x : Strip × Nat => x.1.Safe) _ _ _ (s, rn) hs
  intro x i hx
  exact Safe_set_hue x.1 i _ hx (hue_wrap_lt _)


theorem prng_lt (rn max : Nat) (h : 0 < max) : (prng rn max).2 % 256 < max := by
  have h1 : (prng rn max).2 < max := Nat.mod_lt _ h
  exact Nat.lt_of_le_of_lt (Nat.mod_le _ _) h1

theorem scatter_eq (ltr : Bool) (i : Nat) : ∀ (s : Strip) (rn : Nat),
    (scatter ltr i s rn).1 = apply_sets (scatter_calls ltr i rn) s := by
  induction i with
  | zero => intro s rn; rfl
  | succ i ih =>
    intro s rn
    unfold scatter scatter_calls
    cases ltr
    · simp only [Bool.false_eq_true, if_false]
      rw [ih]; rfl
    · simp only [if_true]
      rw [ih]; rfl

theorem scatter_calls_ok (ltr : Bool) (i : Nat) : ∀ rn : Nat,
    ∀ c ∈ scatter_calls ltr i rn, SetCallOK c := by
  induction i with
  | zero => intro rn c hc; unfold scatter_calls at hc; exact absurd hc (List.not_mem_nil c)
  | succ i ih =>
    intro rn c hc
    unfold scatter_calls at hc
    cases ltr
    · simp only [Bool.false_eq_true, if_false, List.mem_cons] at hc
      rcases hc with h | h
      · rw [h]; exact ⟨prng_lt _ _ (by decide), prng_lt _ _ (by decide)⟩
      · exact ih _ c h
    · simp only [if_true, List.mem_cons] at hc
      rcases hc with h | h
      · rw [h]; exact ⟨prng_lt _ _ (by decide), prng_lt _ _ (by decide)⟩
      · exact ih _ c h

theorem randomize_eq (l : List Nat) : ∀ (s : Strip) (rn : Nat),
    (l.foldl (fun (x : Strip × Nat) i =>
      let h := prng x.2 192
      (NEO_set x.1 i (h.2 % 256), h.1)) (s, rn)).1 = apply_sets (randomize_calls l rn) s := by
  induction l with
  | nil => intro s rn; rfl
  | cons i l ih =>
    intro s rn
    rw [List.foldl_cons]
    unfold randomize_calls
    exact ih _ _

theorem randomize_calls_ok (l : List Nat) (hl : ∀ i ∈ l, i < NEO_COUNT) : ∀ rn : Nat,
    ∀ c ∈ randomize_calls l rn, SetCallOK c := by
  induction l with
  | nil => intro rn c hc; unfold randomize_calls at hc; exact absurd hc (List.not_mem_nil c)
  | cons i l ih =>
    intro rn c hc
    unfold randomize_calls at hc
    rcases List.mem_cons.mp hc with h | h
    · rw [h]; exact ⟨hl i (List.mem_cons_self i l), prng_lt _ _ (by decide)⟩
    · exact ih (fun j hj => hl j (List.mem_cons_of_mem i hj)) _ c h

theorem rainbow_eq (l : List Nat) : ∀ (s : Strip) (h : Nat),
    (l.foldl (fun (x : Strip × Nat) i =>
      (NEO_set x.1 i x.2, (x.2 + 192 / NEO_COUNT) % 256)) (s, h)).1 =
        apply_sets (rainbow_calls l h) s := by
  induction l with
  | nil => intro s h; rfl
  | cons i l ih =>
    intro s h
    rw [List.foldl_cons]
    unfold rainbow_calls
    exact ih _ _

theorem rainbow_calls_ok : ∀ c ∈ rainbow_calls (List.range NEO_COUNT) 0, SetCallOK c := by
  unfold SetCallOK
  decide


theorem ptr_step_lt (p : Nat) :
    (if (p + 1) % 256 ≥ NEO_COUNT then 0 else (p + 1) % 256) < NEO_COUNT := by
  unfold NEO_COUNT
  split <;> omega

theorem set_calls_ok (ltr : Bool) (a : Anim) : ∀ c ∈ set_calls ltr a, SetCallOK c := by
  unfold set_calls
  split
  · intro c hc
    simp only [List.mem_cons, List.mem_singleton, List.not_mem_nil, or_false] at hc
    rcases hc with h | h
    · rw [h]; exact ⟨ptr_step_lt _, hue_wrap_lt _⟩
    · rw [h]; exact ⟨ptr_step_lt _, hue_wrap_lt _⟩
  · exact scatter_calls_ok ltr _ _
  · exact randomize_calls_ok _ (fun i hi => List.mem_range.mp hi) _
  · exact rainbow_calls_ok
  · intro c hc; exact absurd hc (List.not_mem_nil c)

theorem animate_strip (ltr : Bool) (a : Anim) (h4 : a.state ≠ 4) (h6 : a.state ≠ 6)
    (h7 : a.state ≠ 7) :
    (animate ltr a).strip = apply_sets (set_calls ltr a) (set_base a) := by
  obtain ⟨st, counter, hue1, hue2, ptr1, ptr2, mode, strip, rnval, out⟩ := a
  simp only at h4 h6 h7
  rcases st with _ | _ | _ | _ | _ | _ | _ | _ | n
  · rfl
  · rfl
  · simp only [animate, set_calls, set_base, show_fields]
    exact scatter_eq ltr _ _ _
  · simp only [animate, set_calls, set_base, show_fields]
    exact randomize_eq _ _ _
  · exact absurd rfl h4
  · simp only [animate, set_calls, set_base, show_fields]
    exact rainbow_eq _ _ _
  · exact absurd rfl h6
  · exact absurd rfl h7
  · rfl

theorem set_base_safe (a : Anim) (hs : a.strip.Safe) : (set_base a).Safe := by
  unfold set_base
  split
  · exact Safe_fadeOut _ hs
  · exact Safe_fadeOut _ hs
  · exact hs

theorem animate_safe (ltr : Bool) (a : Anim) (hs : a.strip.Safe) :
    (animate ltr a).strip.Safe := by
  by_cases h4 : a.state = 4
  · unfold animate; rw [h4]; simp only [show_fields]; exact Safe_drift _ _ hs
  · by_cases h6 : a.state = 6
    · unfold animate; rw [h6]; simp only [show_fields]; exact Safe_cw _ hs
    · by_cases h7 : a.state = 7
      · unfold animate; rw [h7]; simp only [show_fields]
        exact Safe_fill _ _ hs (hue_wrap_lt _)
      · rw [animate_strip ltr a h4 h6 h7]
        exact Safe_apply_sets _ (set_calls_ok ltr a) _ (set_base_safe a hs)


theorem switching_strip (key : Bool) (b : Anim) :
    (switching key b).strip = b.strip ∧ (switching key b).out = b.out := by
  unfold switching
  split
  · split <;> exact ⟨rfl, rfl⟩
  · dsimp only
    split <;> exact ⟨rfl, rfl⟩

theorem loop_iter_strip (ltr key : Bool) (a : Anim) :
    (loop_iter ltr key a).strip = (animate ltr a).strip ∧
    (loop_iter ltr key a).out = (animate ltr a).out := by
  unfold loop_iter
  rw [(advance_fields key _).2.2.1, (advance_fields key _).2.2.2, (switching_strip key _).1,
    (switching_strip key _).2]
  exact ⟨rfl, rfl⟩

theorem main_init_safe (boot_key : Bool) (u : Nat × Nat × Nat × Nat) :
    (main_init boot_key u).strip.Safe := by
  unfold main_init Strip.Safe
  refine ⟨by simp, by simp, ?_, ?_⟩
  · intro x hx
    rw [(List.mem_replicate.mp hx).2]; decide
  · intro x hx
    rw [(List.mem_replicate.mp hx).2]; decide

theorem main_run_safe (ltr boot_key : Bool) (u : Nat × Nat × Nat × Nat) (keys : List Bool) :
    (main_run ltr boot_key u keys).strip.Safe := by
  unfold main_run
  apply foldl_inv (fun a : Anim => a.strip.Safe) _ _ _ _ (main_init_safe boot_key u)
  intro a key ha
  show (loop_iter ltr key a).strip.Safe
  rw [(loop_iter_strip ltr key a).1]
  exact animate_safe ltr a ha

end NeoDemo

namespace NeoWof

/-- C15: for every hue `h` below 192, `NEO_writeHue(h)` makes exactly one
`NEO_writeColor` call, with `step = (h & 63) << 2` (four times `h % 64`, at
most 252, so the `uint8_t` holds it), `nstep = 252 - step`, and the phase
mapping of the gamma variant: `(nstep, step, 0)` for `h / 64 = 0`,
`(0, nstep, step)` for 1, `(step, 0, nstep)` for 2.  The two values are the
linear steps themselves (no table lookup) and always sum to 252. -/
theorem NEO_writeHue_linear (h : Nat) (hh : h < 192) :
    ∃ step nstep : Nat,
      step = (h &&& 63) <<< 2 ∧ nstep = 252 - step ∧ step = 4 * (h % 64) ∧
      step ≤ 252 ∧ step + nstep = 252 ∧
      NEO_writeHue h = [NeoDemo.phase_map (h / 64) step nstep] ∧
      (h / 64 = 0 → NEO_writeHue h = [(nstep, step, 0)]) ∧
      (h / 64 = 1 → NEO_writeHue h = [(0, nstep, step)]) ∧
      (h / 64 = 2 → NEO_writeHue h = [(step, 0, nstep)]) := by
  have hp : h >>> 6 = h / 64 := by rw [Nat.shiftRight_eq_div_pow]
  have hs : h &&& 63 = h % 64 := Nat.and_pow_two_sub_one_eq_mod h 6
  have hsl : (h % 64) <<< 2 = 4 * (h % 64) := by rw [Nat.shiftLeft_eq]; omega
  have h64 : h % 64 < 64 := Nat.mod_lt _ (by decide)
  have h1 : (4 * (h % 64)) % 256 = 4 * (h % 64) := Nat.mod_eq_of_lt (by omega)
  have h2 : ((63 <<< 2) + 256 - 4 * (h % 64)) % 256 = 252 - 4 * (h % 64) := by
    have : 63 <<< 2 = 252 := by decide
    rw [this]; omega
  have hw : NEO_writeHue h =
      [NeoDemo.phase_map (h / 64) (4 * (h % 64)) (252 - 4 * (h % 64))] := by
    unfold NEO_writeHue NeoDemo.phase_map
    simp only [hp, hs, hsl, h1, h2]
    have h3 : h / 64 < 3 := by omega
    generalize h / 64 = p at h3
    interval_cases p <;> rfl
  refine ⟨4 * (h % 64), 252 - 4 * (h % 64), ?_, rfl, rfl, by omega, by omega, hw, ?_, ?_, ?_⟩
  · rw [hs, hsl]
  · intro h0; rw [hw, h0]; rfl
  · intro h0; rw [hw, h0]; rfl
  · intro h0; rw [hw, h0]; rfl

/-- Instance of C15 at hue 130 (phase 2, step 8, nstep 244). -/
theorem NEO_writeHue_linear_witness :
    ∃ step nstep : Nat,
      step = (130 &&& 63) <<< 2 ∧ nstep = 252 - step ∧ step = 4 * (130 % 64) ∧
      step ≤ 252 ∧ step + nstep = 252 ∧
      NEO_writeHue 130 = [NeoDemo.phase_map (130 / 64) step nstep] ∧
      (130 / 64 = 0 → NEO_writeHue 130 = [(nstep, step, 0)]) ∧
      (130 / 64 = 1 → NEO_writeHue 130 = [(0, nstep, step)]) ∧
      (130 / 64 = 2 → NEO_writeHue 130 = [(step, 0, nstep)]) :=
  NEO_writeHue_linear 130 (by decide)

end NeoWof

namespace NeoHunt

end NeoHunt

namespace NeoDemo

theorem gamma_step : ∀ i : Fin 63, NEO_gamma.getD i.val 0 ≤ NEO_gamma.getD (i.val + 1) 0 := by
  decide

theorem gamma_mono (i j : Nat) (hij : i ≤ j) (hj : j < 64) :
    NEO_gamma.getD i 0 ≤ NEO_gamma.getD j 0 := by
  induction j with
  | zero =>
    have : i = 0 := by omega
    rw [this]
  | succ j ih =>
    by_cases h : i = j + 1
    · rw [h]
    · exact Nat.le_trans (ih (by omega) (by omega)) (gamma_step ⟨j, by omega⟩)

theorem shift_mono (x k1 k2 : Nat) (hk : k2 ≤ k1) : x >>> k1 ≤ x >>> k2 := by
  rw [Nat.shiftRight_eq_div_pow, Nat.shiftRight_eq_div_pow]
  exact Nat.div_le_div_left (Nat.pow_le_pow_right (by decide) hk) (Nat.pos_pow_of_pos _ (by decide))

theorem gamma_dim (x b1 b2 : Nat) (hx : x < 64) (hb : b1 ≤ b2) :
    NEO_gamma.getD (x >>> (6 - b1)) 0 ≤ NEO_gamma.getD (x >>> (6 - b2)) 0 := by
  apply gamma_mono _ _ (shift_mono x _ _ (by omega))
  rw [Nat.shiftRight_eq_div_pow]
  exact Nat.lt_of_le_of_lt (Nat.div_le_self _ _) hx

theorem NEO_show_body_phase (h b : Nat) (hh : h < 192) :
    NEO_show_body h b =
      [phase_map (h / 64) (NEO_gamma.getD ((h % 64) >>> (6 - b)) 0)
        (NEO_gamma.getD ((63 - h % 64) >>> (6 - b)) 0)] := by
  rw [NEO_show_body_eq h b hh]
  unfold hueToRGB phase_map
  have h3 : h / 64 < 3 := by omega
  generalize h / 64 = p at h3
  interval_cases p <;> rfl

theorem phase_map_le (p c1 n1 c2 n2 : Nat) (hc : c1 ≤ c2) (hn : n1 ≤ n2) :
    channels_le (phase_map p c1 n1) (phase_map p c2 n2) := by
  unfold phase_map channels_le
  split
  · exact ⟨hn, hc, Nat.le_refl 0⟩
  · split
    · exact ⟨Nat.le_refl 0, hn, hc⟩
    · exact ⟨hc, Nat.le_refl 0, hn⟩

theorem dim_le (h b1 b2 : Nat) (hh : h < 192) (hb : b1 ≤ b2) :
    ∃ c1 c2 : Color, NEO_show_body h b1 = [c1] ∧ NEO_show_body h b2 = [c2] ∧
      channels_le c1 c2 := by
  have h64 : h % 64 < 64 := Nat.mod_lt _ (by decide)
  exact ⟨_, _, NEO_show_body_phase h b1 hh, NEO_show_body_phase h b2 hh,
    phase_map_le _ _ _ _ _ (gamma_dim _ _ _ h64 hb) (gamma_dim _ _ _ (by omega) hb)⟩


theorem getD_set (l : List Nat) (i j v : Nat) :
    (l.set i v).getD j 0 = if i = j ∧ i < l.length then v else l.getD j 0 := by
  by_cases hij : i = j
  · subst hij
    by_cases hi : i < l.length
    · rw [List.getD_eq_getElem?_getD, List.getElem?_set_self hi, if_pos ⟨rfl, hi⟩]
      rfl
    · rw [List.set_eq_of_length_le (Nat.le_of_not_lt hi), if_neg (fun h => hi h.2)]
  · rw [List.getD_eq_getElem?_getD, List.getD_eq_getElem?_getD, List.getElem?_set_ne hij,
      if_neg (fun h => hij h.1)]

theorem getD_pos_lt (l : List Nat) (i : Nat) (h : l.getD i 0 ≠ 0) : i < l.length := by
  by_contra hc
  exact h (List.getD_eq_default l 0 (Nat.le_of_not_lt hc))

theorem fadeOut_fold (s : Strip) (n : Nat) :
    ((List.range n).foldl
      (fun s i =>
        if s.NEO_bright.getD i 0 ≠ 0 then
          { s with NEO_bright := s.NEO_bright.set i ((s.NEO_bright.getD i 0 + 255) % 256) }
        else s) s).NEO_hue = s.NEO_hue ∧
    ∀ j, ((List.range n).foldl
      (fun s i =>
        if s.NEO_bright.getD i 0 ≠ 0 then
          { s with NEO_bright := s.NEO_bright.set i ((s.NEO_bright.getD i 0 + 255) % 256) }
        else s) s).NEO_bright.getD j 0 =
      if j < n ∧ s.NEO_bright.getD j 0 ≠ 0 then (s.NEO_bright.getD j 0 + 255) % 256
      else s.NEO_bright.getD j 0 := by
  induction n with
  | zero =>
    refine ⟨rfl, fun j => ?_⟩
    rw [if_neg (fun h => Nat.not_lt_zero j h.1)]
    rfl
  | succ n ih =>
    rw [List.range_succ, List.foldl_append, List.foldl_cons, List.foldl_nil]
    obtain ⟨ih1, ih2⟩ := ih
    generalize (List.range n).foldl
      (fun s i =>
        if s.NEO_bright.getD i 0 ≠ 0 then
          { s with NEO_bright := s.NEO_bright.set i ((s.NEO_bright.getD i 0 + 255) % 256) }
        else s) s = r at ih1 ih2
    have hn : r.NEO_bright.getD n 0 = s.NEO_bright.getD n 0 := by
      rw [ih2 n, if_neg (fun h => Nat.lt_irrefl n h.1)]
    by_cases hb : r.NEO_bright.getD n 0 ≠ 0
    · rw [if_pos hb]
      refine ⟨ih1, fun j => ?_⟩
      show (r.NEO_bright.set n ((r.NEO_bright.getD n 0 + 255) % 256)).getD j 0 = _
      have hlt := getD_pos_lt _ _ hb
      rw [getD_set]
      by_cases hj : n = j
      · subst hj
        rw [if_pos ⟨rfl, hlt⟩, hn, if_pos ⟨Nat.lt_succ_self n, hn ▸ hb⟩]
      · rw [if_neg (fun h => hj h.1), ih2 j]
        have h2 : (j < n + 1 ∧ s.NEO_bright.getD j 0 ≠ 0) ↔
            (j < n ∧ s.NEO_bright.getD j 0 ≠ 0) := by
          constructor
          · intro h; exact ⟨by omega, h.2⟩
          · intro h; exact ⟨by omega, h.2⟩
        simp only [h2]
    · rw [if_neg hb]
      refine ⟨ih1, fun j => ?_⟩
      rw [ih2 j]
      by_cases hj : n = j
      · subst hj
        rw [hn] at hb
        rw [if_neg (fun h => Nat.lt_irrefl n h.1), if_neg (fun h => hb h.2)]
      · have h2 : (j < n + 1 ∧ s.NEO_bright.getD j 0 ≠ 0) ↔
            (j < n ∧ s.NEO_bright.getD j 0 ≠ 0) := by
          constructor
          · intro h; exact ⟨by omega, h.2⟩
          · intro h; exact ⟨by omega, h.2⟩
        simp only [h2]

theorem NEO_fadeOut_levels (s : Strip) :
    (NEO_fadeOut s).NEO_hue = s.NEO_hue ∧
    ∀ j, j < NEO_COUNT → (NEO_fadeOut s).NEO_bright.getD j 0 =
      if s.NEO_bright.getD j 0 ≠ 0 then (s.NEO_bright.getD j 0 + 255) % 256
      else s.NEO_bright.getD j 0 := by
  unfold NEO_fadeOut
  refine ⟨(fadeOut_fold s NEO_COUNT).1, fun j hj => ?_⟩
  rw [(fadeOut_fold s NEO_COUNT).2 j]
  by_cases hb : s.NEO_bright.getD j 0 ≠ 0
  · rw [if_pos ⟨hj, hb⟩, if_pos hb]
  · rw [if_neg (fun h => hb h.2), if_neg hb]

/-- C22: for every hue `h` below 192 and brightness levels `b1 ≤ b2 ≤ 6` (so
that both shift amounts `6 - b` are non-negative integers), the loop body of
`NEO_show` makes one `NEO_writeColor` call for `(h, b1)` and one for
`(h, b2)`, and red, green and blue of the first are each at most the same
channel of the second.  `NEO_fadeOut` leaves the hues alone and takes each of
the `NEO_COUNT` brightness levels one step down (0 stays 0), so on a safe
buffer the call `NEO_show` makes for any pixel after the fade has no channel
above the call it made before. -/
theorem dimming_monotone (h b1 b2 : Nat) (hh : h < 192) (h12 : b1 ≤ b2) (h6 : b2 ≤ 6) :
    (∃ c1 c2 : Color, NEO_show_body h b1 = [c1] ∧ NEO_show_body h b2 = [c2] ∧
      channels_le c1 c2) ∧
    ((6 - b1 : Nat) : Int) = 6 - (b1 : Int) ∧ ((6 - b2 : Nat) : Int) = 6 - (b2 : Int) ∧
    (∀ s : Strip, s.Safe →
      (NEO_fadeOut s).NEO_hue = s.NEO_hue ∧
      ∀ i, i < NEO_COUNT →
        (NEO_fadeOut s).NEO_bright.getD i 0 = s.NEO_bright.getD i 0 - 1 ∧
        ∃ c1 c2 : Color, NEO_show_iter (NEO_fadeOut s) i = [c1] ∧ NEO_show_iter s i = [c2] ∧
          channels_le c1 c2) := by
  refine ⟨dim_le h b1 b2 hh h12, by omega, by omega, ?_⟩
  intro s hs
  obtain ⟨hhue, hlev⟩ := NEO_fadeOut_levels s
  refine ⟨hhue, fun i hi => ?_⟩
  have hb : s.NEO_bright.getD i 0 ≤ 6 := getD_all (fun y => y ≤ 6) _ i hs.2.2.2 (by decide)
  have hhi : s.NEO_hue.getD i 0 < 192 := getD_all (fun y => y < 192) _ i hs.2.2.1 (by decide)
  have hl : (NEO_fadeOut s).NEO_bright.getD i 0 = s.NEO_bright.getD i 0 - 1 := by
    rw [hlev i hi]
    split <;> omega
  refine ⟨hl, ?_⟩
  unfold NEO_show_iter
  rw [hhue, hl]
  exact dim_le _ _ _ hhi (Nat.sub_le _ _)

/-- Instance of C22: hue 70 at levels 2 and 5. -/
theorem dimming_monotone_witness :
    ∃ c1 c2 : Color, NEO_show_body 70 2 = [c1] ∧ NEO_show_body 70 5 = [c2] ∧
      channels_le c1 c2 :=
  (dimming_monotone 70 2 5 (by decide) (by decide) (by decide)).1

theorem drift_bright (s : Strip) (rn : Nat) : (drift s rn).1.NEO_bright = s.NEO_bright := by
  unfold drift
  apply foldl_inv (fun x : Strip × Nat => x.1.NEO_bright = s.NEO_bright) _ _ _ (s, rn) rfl
  intro x i hx
  exact hx

theorem fill_bright (s : Strip) (h : Nat) : (NEO_fill s h).NEO_bright = s.NEO_bright := by
  unfold NEO_fill
  apply foldl_inv (fun x : Strip => x.NEO_bright = s.NEO_bright) _ _ _ s rfl
  intro x i hx
  exact hx

theorem cw_bright (s : Strip) (hl : s.NEO_hue.length = NEO_COUNT) (hf : s.FullBright) :
    (NEO_cw s).FullBright := by
  obtain ⟨hue, bright⟩ := s
  obtain ⟨a0, a1, a2, a3, a4, a5, a6, a7, a8, a9, a10, a11, a12, a13, a14, a15, rfl⟩ :=
    list_length_16 hue hl
  have hb : bright = [6, 6, 6, 6, 6, 6, 6, 6, 6, 6, 6, 6, 6, 6, 6, 6] := hf
  subst hb
  rw [NEO_cw_eq]
  rfl

theorem apply_sets_bright (calls : List (Nat × Nat)) : ∀ s : Strip,
    (apply_sets calls s).NEO_bright =
      (calls.map Prod.fst).foldl (fun l i => l.set i 6) s.NEO_bright := by
  induction calls with
  | nil => intro s; rfl
  | cons c l ih => intro s; exact ih (NEO_set s c.1 c.2)

theorem randomize_calls_fst (l : List Nat) : ∀ rn, (randomize_calls l rn).map Prod.fst = l := by
  induction l with
  | nil => intro rn; rfl
  | cons i l ih =>
    intro rn
    unfold randomize_calls
    rw [List.map_cons, ih]

theorem rainbow_calls_fst (l : List Nat) : ∀ h, (rainbow_calls l h).map Prod.fst = l := by
  induction l with
  | nil => intro h; rfl
  | cons i l ih =>
    intro h
    unfold rainbow_calls
    rw [List.map_cons, ih]

theorem set_all_six (l : List Nat) (hl : l.length = NEO_COUNT) :
    (List.range NEO_COUNT).foldl (fun l i => l.set i 6) l = List.replicate NEO_COUNT 6 := by
  obtain ⟨b0, b1, b2, b3, b4, b5, b6, b7, b8, b9, b10, b11, b12, b13, b14, b15, rfl⟩ :=
    list_length_16 l hl
  rfl

theorem animate_full (ltr : Bool) (a : Anim) (hs : a.strip.Safe)
    (h : a.state = 3 ∨ a.state = 5 ∨ (4 ≤ a.state ∧ a.strip.FullBright)) :
    (animate ltr a).strip.FullBright := by
  obtain ⟨st, counter, hue1, hue2, ptr1, ptr2, mode, strip, rnval, out⟩ := a
  simp only at h hs
  rcases st with _ | _ | _ | _ | _ | _ | _ | _ | n
  · omega
  · omega
  · omega
  · rw [animate_strip ltr _ (by simp) (by simp) (by simp)]
    unfold Strip.FullBright
    rw [apply_sets_bright]
    show List.foldl _ strip.NEO_bright
      ((randomize_calls (List.range NEO_COUNT) rnval).map Prod.fst) = _
    rw [randomize_calls_fst]
    exact set_all_six _ hs.2.1
  · have hf : strip.FullBright := by rcases h with h | h | h; omega; omega; exact h.2
    show (drift strip rnval).1.NEO_bright = _
    rw [drift_bright]; exact hf
  · rw [animate_strip ltr _ (by simp) (by simp) (by simp)]
    unfold Strip.FullBright
    rw [apply_sets_bright]
    show List.foldl _ strip.NEO_bright
      ((rainbow_calls (List.range NEO_COUNT) 0).map Prod.fst) = _
    rw [rainbow_calls_fst]
    exact set_all_six _ hs.2.1
  · have hf : strip.FullBright := by rcases h with h | h | h; omega; omega; exact h.2
    exact cw_bright strip hs.1 hf
  · have hf : strip.FullBright := by rcases h with h | h | h; omega; omega; exact h.2
    show (NEO_fill strip _).NEO_bright = _
    rw [fill_bright]; exact hf
  · have hf : strip.FullBright := by rcases h with h | h | h; omega; omega; exact h.2
    exact hf


theorem animate_state_low (ltr : Bool) (a : Anim) (h : a.state ≤ 2) :
    (animate ltr a).state ≤ 2 := by
  obtain ⟨st, counter, hue1, hue2, ptr1, ptr2, mode, strip, rnval, out⟩ := a
  simp only at h
  rcases st with _ | _ | _ | n
  · exact Nat.le_succ 1
  · exact Nat.le_succ 1
  · exact Nat.le_refl 2
  · omega

theorem switching_state_le (key : Bool) (b : Anim) : (switching key b).state ≤ b.state + 1 := by
  have hmod : (b.state + 1) % 256 ≤ b.state + 1 := Nat.mod_le _ _
  unfold switching
  split
  · split
    · exact hmod
    · exact Nat.le_succ _
  · dsimp only
    split
    · exact hmod
    · exact Nat.le_succ _

theorem advance_state_le (key : Bool) (b : Anim) :
    (advance key b).state ≤ (switching key b).state := by
  unfold advance
  generalize switching key b = c
  by_cases h : c.state > 7
  · simp only [h, if_true]; exact Nat.zero_le _
  · simp only [h, if_false]; exact Nat.le_refl _

theorem loop_iter_state_le (ltr key : Bool) (a : Anim) :
    (loop_iter ltr key a).state ≤ (animate ltr a).state + 1 :=
  Nat.le_trans (advance_state_le key _) (switching_state_le key _)

theorem loop_iter_full (ltr key : Bool) (a : Anim) (hs : a.strip.Safe)
    (hf : 4 ≤ a.state → a.strip.FullBright) (h4 : 4 ≤ (loop_iter ltr key a).state) :
    (loop_iter ltr key a).strip.FullBright := by
  rw [(loop_iter_strip ltr key a).1]
  by_cases h2 : a.state ≤ 2
  · have := animate_state_low ltr a h2
    have := loop_iter_state_le ltr key a
    omega
  · apply animate_full ltr a hs
    by_cases h3 : a.state = 3
    · exact Or.inl h3
    · exact Or.inr (Or.inr ⟨by omega, hf (by omega)⟩)

theorem main_run_full (ltr boot_key : Bool) (u : Nat × Nat × Nat × Nat) (keys : List Bool) :
    4 ≤ (main_run ltr boot_key u keys).state → (main_run ltr boot_key u keys).strip.FullBright := by
  induction keys using List.reverseRecOn with
  | nil => intro h; exact absurd h (show ¬ 4 ≤ 0 by decide)
  | append_singleton l k ih =>
    rw [main_run_snoc]
    exact loop_iter_full ltr k _ (main_run_safe ltr boot_key u l) ih

theorem full_getD (i : Nat) (hi : i < NEO_COUNT) : (List.replicate NEO_COUNT 6).getD i 0 = 6 := by
  have hi16 : i < 16 := hi
  interval_cases i <;> rfl

/-- C23: at the start of every iteration of the main loop in which the state
is 4 or more (so whenever state 4, 6 or 7 is executed), in either mode, for
any button readings, either evaluation order and any content of the
uninitialised locals, every brightness level of the buffer is 6, and it still
is in the buffer handed to `NEO_show` in that iteration.  From any safe, fully
bright buffer and any generator state, the hue drift of state 4, the rotation
of state 6 and the `NEO_fill` of state 7 leave every level at 6, so each of
the `NEO_COUNT` pixels is rendered by the loop body of `NEO_show` at level 6;
the full brightness is established by states 3 and 5, which set every
pixel. -/
theorem full_brightness_in_states_4_6_7 :
    (∀ (ltr boot_key : Bool) (u : Nat × Nat × Nat × Nat) (keys : List Bool),
      4 ≤ (main_run ltr boot_key u keys).state →
        (main_run ltr boot_key u keys).strip.FullBright ∧
        (animate ltr (main_run ltr boot_key u keys)).strip.FullBright) ∧
    (∀ (ltr : Bool) (a : Anim), a.strip.Safe → a.strip.FullBright →
      (a.state = 4 ∨ a.state = 6 ∨ a.state = 7) →
        (animate ltr a).strip.FullBright ∧
        ∀ i, i < NEO_COUNT →
          (animate ltr a).strip.NEO_bright.getD i 0 = 6 ∧
          NEO_show_iter (animate ltr a).strip i =
            NEO_show_body ((animate ltr a).strip.NEO_hue.getD i 0) 6) ∧
    (∀ (ltr : Bool) (a : Anim), a.strip.Safe → (a.state = 3 ∨ a.state = 5) →
      (animate ltr a).strip.FullBright) := by
  refine ⟨?_, ?_, ?_⟩
  · intro ltr boot_key u keys h4
    have hf := main_run_full ltr boot_key u keys h4
    exact ⟨hf, animate_full ltr _ (main_run_safe ltr boot_key u keys) (Or.inr (Or.inr ⟨h4, hf⟩))⟩
  · intro ltr a hs hf hst
    have h4 : 4 ≤ a.state := by omega
    have hfull := animate_full ltr a hs (Or.inr (Or.inr ⟨h4, hf⟩))
    refine ⟨hfull, fun i hi => ?_⟩
    have hb : (animate ltr a).strip.NEO_bright.getD i 0 = 6 := by
      rw [hfull]; exact full_getD i hi
    refine ⟨hb, ?_⟩
    unfold NEO_show_iter
    rw [hb]
  · intro ltr a hs hst
    rcases hst with h | h
    · exact animate_full ltr a hs (Or.inl h)
    · exact animate_full ltr a hs (Or.inr (Or.inl h))

/-- Instance of C23: in button mode the readings pressed, pressed, released
lead to state 4, which is executed on a fully bright buffer. -/
theorem full_brightness_in_states_4_6_7_witness :
    (main_run true true (0, 0, 0, 0) [true, true, false]).state = 4 ∧
    (main_run true true (0, 0, 0, 0) [true, true, false]).strip.FullBright :=
  ⟨by decide!,
    (full_brightness_in_states_4_6_7.1 true true (0, 0, 0, 0) [true, true, false]
      (by decide!)).1⟩

end NeoDemo

namespace NeoWof


theorem NEO_writeHue_phase (h : Nat) (hh : h < 192) :
    NEO_writeHue h = [NeoDemo.phase_map (h / 64) (4 * (h % 64)) (252 - 4 * (h % 64))] := by
  have hp : h >>> 6 = h / 64 := by rw [Nat.shiftRight_eq_div_pow]
  have hs : h &&& 63 = h % 64 := Nat.and_pow_two_sub_one_eq_mod h 6
  have hsl : (h % 64) <<< 2 = 4 * (h % 64) := by rw [Nat.shiftLeft_eq]; omega
  have h64 : h % 64 < 64 := Nat.mod_lt _ (by decide)
  have h1 : (4 * (h % 64)) % 256 = 4 * (h % 64) := Nat.mod_eq_of_lt (by omega)
  have h2 : ((63 <<< 2) + 256 - 4 * (h % 64)) % 256 = 252 - 4 * (h % 64) := by
    have : 63 <<< 2 = 252 := by decide
    rw [this]; omega
  unfold NEO_writeHue NeoDemo.phase_map
  simp only [hp, hs, hsl, h1, h2]
  have h3 : h / 64 < 3 := by omega
  generalize h / 64 = p at h3
  interval_cases p <;> rfl

theorem NEO_writeHue_lit (h : Nat) (hh : h < 192) :
    (NEO_writeHue h).length = 1 ∧ NEO_writeHue h ≠ [(0, 0, 0)] := by
  rw [NEO_writeHue_phase h hh]
  refine ⟨rfl, ?_⟩
  have h64 : h % 64 < 64 := Nat.mod_lt _ (by decide)
  have h3 : h / 64 < 3 := by omega
  generalize h / 64 = p at h3
  generalize h % 64 = q at h64
  unfold NeoDemo.phase_map
  intro he
  interval_cases p <;> simp at he <;> omega

theorem NEO_setPixel_map (nr hue : Nat) (hh : hue < 192) :
    NEO_setPixel nr hue =
      (List.range NEO_COUNT).map
        (fun i => if i = nr then (NEO_writeHue hue).getD 0 (0, 0, 0) else (0, 0, 0)) := by
  obtain ⟨h1, _⟩ := NEO_writeHue_lit hue hh
  obtain ⟨c, hc⟩ := List.length_eq_one.mp h1
  unfold NEO_setPixel
  rw [hc]
  have : ∀ i : Nat, (if i = nr then [c] else [((0 : Nat), (0 : Nat), (0 : Nat))]) =
      [if i = nr then c else (0, 0, 0)] := by
    intro i; split <;> rfl
  simp only [this, List.getD_cons_zero]
  induction (List.range NEO_COUNT) with
  | nil => rfl
  | cons a l ih => rw [List.flatMap_cons, List.map_cons, ih]; rfl

theorem NEO_setPixel_frame (nr hue : Nat) (hn : nr < NEO_COUNT) (hh : hue < 192) :
    (NEO_setPixel nr hue).length = NEO_COUNT ∧
    [(NEO_setPixel nr hue).getD nr (0, 0, 0)] = NEO_writeHue hue ∧
    (NEO_setPixel nr hue).getD nr (0, 0, 0) ≠ (0, 0, 0) ∧
    (∀ i, i < NEO_COUNT → i ≠ nr → (NEO_setPixel nr hue).getD i (0, 0, 0) = (0, 0, 0)) := by
  obtain ⟨h1, h2⟩ := NEO_writeHue_lit hue hh
  obtain ⟨c, hc⟩ := List.length_eq_one.mp h1
  have hget : ∀ i, i < NEO_COUNT → (NEO_setPixel nr hue).getD i (0, 0, 0) =
      if i = nr then c else (0, 0, 0) := by
    intro i hi
    rw [NEO_setPixel_map nr hue hh, hc, List.getD_eq_getElem _ _ (by simpa using hi)]
    simp
  refine ⟨?_, ?_, ?_, ?_⟩
  · rw [NEO_setPixel_map nr hue hh, List.length_map, List.length_range]
  · rw [hget nr hn, if_pos rfl, hc]
  · rw [hget nr hn, if_pos rfl]
    intro h0
    rw [hc, h0] at h2
    exact h2 rfl
  · intro i hi hne
    rw [hget i hi, if_neg hne]


theorem wheel_step_fields (w : Wheel) (hn : w.number < NEO_COUNT) (hh : w.hue < 192) :
    (wheel_step w).number = (w.number + 1) % NEO_COUNT ∧
    (wheel_step w).hue = (w.hue + 1) % 192 ∧
    (wheel_step w).speed = w.speed ∧
    (wheel_step w).frames =
      w.frames ++ [NEO_setPixel ((w.number + 1) % NEO_COUNT) ((w.hue + 1) % 192)] ∧
    (wheel_step w).delays = w.delays ++ [w.speed] := by
  have hn16 : w.number < 16 := hn
  have h1 : (if (w.number + 1) % 256 ≥ NEO_COUNT then 0 else (w.number + 1) % 256) =
      (w.number + 1) % NEO_COUNT := by
    unfold NEO_COUNT
    split <;> omega
  have h2 : (if (w.hue + 1) % 256 > 191 then 0 else (w.hue + 1) % 256) = (w.hue + 1) % 192 := by
    split <;> omega
  unfold wheel_step
  simp only [h1, h2, and_self]

theorem frames_cons (a h n : Nat) (fs : List (List NeoDemo.Color)) :
    (fs ++ [NEO_setPixel ((a + 1) % NEO_COUNT) ((h + 1) % 192)]) ++
      (List.range n).map (fun k =>
        NEO_setPixel (((a + 1) % NEO_COUNT + 1 + k) % NEO_COUNT) (((h + 1) % 192 + 1 + k) % 192)) =
    fs ++ (List.range (n + 1)).map (fun k =>
      NEO_setPixel ((a + 1 + k) % NEO_COUNT) ((h + 1 + k) % 192)) := by
  have h16 : NEO_COUNT = 16 := rfl
  rw [List.range_succ_eq_map, List.map_cons, List.map_map, List.append_assoc,
    List.singleton_append]
  congr 2
  apply List.map_congr_left
  intro k _
  show NEO_setPixel _ _ = NEO_setPixel _ _
  have e1 : ((a + 1) % NEO_COUNT + 1 + k) % NEO_COUNT = (a + 1 + Nat.succ k) % NEO_COUNT := by
    rw [h16]; omega
  have e2 : ((h + 1) % 192 + 1 + k) % 192 = (h + 1 + Nat.succ k) % 192 := by omega
  rw [e1, e2]

theorem frames_append (a h n m : Nat) (fs : List (List NeoDemo.Color)) :
    (fs ++ (List.range n).map (fun k =>
        NEO_setPixel ((a + 1 + k) % NEO_COUNT) ((h + 1 + k) % 192))) ++
      (List.range m).map (fun k =>
        NEO_setPixel (((a + n) % NEO_COUNT + 1 + k) % NEO_COUNT) (((h + n) % 192 + 1 + k) % 192)) =
    fs ++ (List.range (n + m)).map (fun k =>
      NEO_setPixel ((a + 1 + k) % NEO_COUNT) ((h + 1 + k) % 192)) := by
  have h16 : NEO_COUNT = 16 := rfl
  rw [List.range_add, List.map_append, List.map_map, List.append_assoc]
  congr 2
  apply List.map_congr_left
  intro k _
  show NEO_setPixel _ _ = NEO_setPixel _ _
  have e1 : ((a + n) % NEO_COUNT + 1 + k) % NEO_COUNT = (a + 1 + (n + k)) % NEO_COUNT := by
    rw [h16]; omega
  have e2 : ((h + n) % 192 + 1 + k) % 192 = (h + 1 + (n + k)) % 192 := by omega
  rw [e1, e2]

theorem speed_up_run (n : Nat) : ∀ (fuel : Nat) (w : Wheel),
    w.speed = n + 1 → n + 1 < 256 → n + 1 ≤ fuel → w.number < NEO_COUNT → w.hue < 192 →
    ∃ w1, speed_up fuel w = some w1 ∧ w1.speed = 0 ∧
      w1.number = (w.number + n) % NEO_COUNT ∧ w1.hue = (w.hue + n) % 192 ∧
      w1.frames = w.frames ++ (List.range n).map (fun k =>
        NEO_setPixel ((w.number + 1 + k) % NEO_COUNT) ((w.hue + 1 + k) % 192)) ∧
      w1.delays = w.delays ++ (List.range' 1 n).reverse := by
  induction n with
  | zero =>
    intro fuel w hs _ hf hn hh
    obtain ⟨f, rfl⟩ : ∃ f, fuel = f + 1 := ⟨fuel - 1, by omega⟩
    refine ⟨{ w with speed := (w.speed + 255) % 256 }, ?_, ?_, ?_, ?_, ?_, ?_⟩
    · unfold speed_up
      have h0 : (w.speed + 255) % 256 = 0 := by omega
      simp only [h0, ne_eq, not_true_eq_false, if_false]
    · show (w.speed + 255) % 256 = 0
      omega
    · show w.number = _
      have : w.number < 16 := hn
      unfold NEO_COUNT; omega
    · show w.hue = _
      omega
    · show w.frames = _
      simp
    · show w.delays = _
      simp
  | succ n ih =>
    intro fuel w hs h256 hf hn hh
    obtain ⟨f, rfl⟩ : ∃ f, fuel = f + 1 := ⟨fuel - 1, by omega⟩
    have h1 : (w.speed + 255) % 256 = n + 1 := by omega
    have hrec : speed_up (f + 1) w =
        speed_up f (wheel_step { w with speed := (w.speed + 255) % 256 }) := by
      rw [speed_up]
      simp only [h1, ne_eq, Nat.succ_ne_zero, not_false_eq_true, if_true]
    have a1 : ({ w with speed := (w.speed + 255) % 256 } : Wheel).number = w.number := rfl
    have a2 : ({ w with speed := (w.speed + 255) % 256 } : Wheel).hue = w.hue := rfl
    have a3 : ({ w with speed := (w.speed + 255) % 256 } : Wheel).speed =
      (w.speed + 255) % 256 := rfl
    have a4 : ({ w with speed := (w.speed + 255) % 256 } : Wheel).frames = w.frames := rfl
    have a5 : ({ w with speed := (w.speed + 255) % 256 } : Wheel).delays = w.delays := rfl
    generalize ({ w with speed := (w.speed + 255) % 256 } : Wheel) = wa at hrec a1 a2 a3 a4 a5
    obtain ⟨s1, s2, s3, s4, s5⟩ := wheel_step_fields wa (by rw [a1]; exact hn) (by rw [a2]; exact hh)
    generalize wheel_step wa = wb at hrec s1 s2 s3 s4 s5
    have h16 : NEO_COUNT = 16 := rfl
    obtain ⟨w1, r1, r2, r3, r4, r5, r6⟩ :=
      ih f wb (by omega) (by omega) (by omega)
        (by rw [s1]; exact Nat.mod_lt _ (by decide)) (by omega)
    refine ⟨w1, hrec.trans r1, r2, ?_, ?_, ?_, ?_⟩
    · rw [r3, s1, a1, h16]; omega
    · omega
    · rw [r5, s4, s1, s2, a1, a2, a4, frames_cons]
    · rw [r6, s5, a5, a3, h1, List.range'_concat, List.reverse_append, List.reverse_singleton,
        List.append_assoc, show 1 + 1 * n = n + 1 by omega]

theorem slow_down_run (m : Nat) : ∀ (fuel : Nat) (w : Wheel),
    w.speed + m = 95 → m + 1 ≤ fuel → w.number < NEO_COUNT → w.hue < 192 →
    ∃ w2, slow_down fuel w = some w2 ∧ w2.speed = 96 ∧
      w2.number = (w.number + m) % NEO_COUNT ∧ w2.hue = (w.hue + m) % 192 ∧
      w2.frames = w.frames ++ (List.range m).map (fun k =>
        NEO_setPixel ((w.number + 1 + k) % NEO_COUNT) ((w.hue + 1 + k) % 192)) ∧
      w2.delays = w.delays ++ List.range' (w.speed + 1) m := by
  induction m with
  | zero =>
    intro fuel w hs hf hn hh
    obtain ⟨f, rfl⟩ : ∃ f, fuel = f + 1 := ⟨fuel - 1, by omega⟩
    have h0 : (w.speed + 1) % 256 = 96 := by omega
    refine ⟨{ w with speed := (w.speed + 1) % 256 }, ?_, h0, ?_, ?_, ?_, ?_⟩
    · unfold slow_down
      simp only [h0, Nat.lt_irrefl, if_false]
    · show w.number = _
      have : w.number < 16 := hn
      unfold NEO_COUNT; omega
    · show w.hue = _
      omega
    · show w.frames = _
      simp
    · show w.delays = _
      simp
  | succ m ih =>
    intro fuel w hs hf hn hh
    obtain ⟨f, rfl⟩ : ∃ f, fuel = f + 1 := ⟨fuel - 1, by omega⟩
    have h1 : (w.speed + 1) % 256 = w.speed + 1 := by omega
    have hlt : w.speed + 1 < 96 := by omega
    have hrec : slow_down (f + 1) w =
        slow_down f (wheel_step { w with speed := (w.speed + 1) % 256 }) := by
      rw [slow_down]
      simp only [h1, hlt, if_true]
    have a1 : ({ w with speed := (w.speed + 1) % 256 } : Wheel).number = w.number := rfl
    have a2 : ({ w with speed := (w.speed + 1) % 256 } : Wheel).hue = w.hue := rfl
    have a3 : ({ w with speed := (w.speed + 1) % 256 } : Wheel).speed =
      (w.speed + 1) % 256 := rfl
    have a4 : ({ w with speed := (w.speed + 1) % 256 } : Wheel).frames = w.frames := rfl
    have a5 : ({ w with speed := (w.speed + 1) % 256 } : Wheel).delays = w.delays := rfl
    generalize ({ w with speed := (w.speed + 1) % 256 } : Wheel) = wa at hrec a1 a2 a3 a4 a5
    obtain ⟨s1, s2, s3, s4, s5⟩ := wheel_step_fields wa (by rw [a1]; exact hn) (by rw [a2]; exact hh)
    generalize wheel_step wa = wb at hrec s1 s2 s3 s4 s5
    have h16 : NEO_COUNT = 16 := rfl
    obtain ⟨w2, r1, r2, r3, r4, r5, r6⟩ :=
      ih f wb (by omega) (by omega) (by rw [s1]; exact Nat.mod_lt _ (by decide)) (by omega)
    refine ⟨w2, hrec.trans r1, r2, ?_, ?_, ?_, ?_⟩
    · rw [r3, s1, a1, h16]; omega
    · omega
    · rw [r5, s4, s1, s2, a1, a2, a4, frames_cons]
    · rw [r6, s5, a5, s3, a3, h1, List.append_assoc]
      rfl

theorem spin_run (fuel cnt : Nat) (w : Wheel) (hf : 96 ≤ fuel) (hn : w.number < NEO_COUNT)
    (hh : w.hue < 192) :
    ∃ w1 w2 w3 : Wheel,
      speed_up fuel { w with speed := ((16 + (cnt &&& 15)) % 2 ^ 32) % 256 } = some w1 ∧
      slow_down fuel w1 = some w2 ∧
      spin fuel cnt w = some w3 ∧
      w1.frames.length = w.frames.length + (15 + cnt % 16) ∧
      w2.frames.length = w1.frames.length + 95 ∧
      w3.frames = w.frames ++ (List.range (110 + cnt % 16)).map (fun k =>
        NEO_setPixel ((w.number + 1 + k) % NEO_COUNT) ((w.hue + 1 + k) % 192)) ∧
      w3.number = (w.number + 14 + cnt % 16) % NEO_COUNT ∧
      w3.hue = (w.hue + 110 + cnt % 16) % 192 ∧
      w3.speed = 96 ∧
      w3.delays = w.delays ++ (List.range' 1 (15 + cnt % 16)).reverse ++ List.range' 1 95 ++ [10] := by
  have hr : cnt &&& 15 = cnt % 16 := Nat.and_pow_two_sub_one_eq_mod cnt 4
  have hr16 : cnt % 16 < 16 := Nat.mod_lt _ (by decide)
  have hsp : ((16 + (cnt &&& 15)) % 2 ^ 32) % 256 = (15 + cnt % 16) + 1 := by
    rw [hr]; omega
  have h16 : NEO_COUNT = 16 := rfl
  obtain ⟨w1, u1, u2, u3, u4, u5, u6⟩ :=
    speed_up_run (15 + cnt % 16) fuel { w with speed := ((16 + (cnt &&& 15)) % 2 ^ 32) % 256 }
      hsp (by omega) (by omega) hn hh
  have u3b : w1.number = (w.number + (15 + cnt % 16)) % NEO_COUNT := u3
  have u4b : w1.hue = (w.hue + (15 + cnt % 16)) % 192 := u4
  have u5b : w1.frames = w.frames ++ (List.range (15 + cnt % 16)).map (fun k =>
      NEO_setPixel ((w.number + 1 + k) % NEO_COUNT) ((w.hue + 1 + k) % 192)) := u5
  have u6b : w1.delays = w.delays ++ (List.range' 1 (15 + cnt % 16)).reverse := u6
  obtain ⟨w2, v1, v2, v3, v4, v5, v6⟩ :=
    slow_down_run 95 fuel w1 (by omega) (by omega)
      (by rw [u3b]; exact Nat.mod_lt _ (by decide)) (by rw [u4b]; exact Nat.mod_lt _ (by decide))
  refine ⟨w1, w2, { w2 with delays := w2.delays ++ [10] }, u1, v1, ?_, ?_, ?_, ?_, ?_, ?_, v2, ?_⟩
  · unfold spin
    rw [u1]
    simp only [v1]
  · rw [u5b, List.length_append, List.length_map, List.length_range]
  · rw [v5, List.length_append, List.length_map, List.length_range]
  · show w2.frames = _
    rw [v5, u5b, u3b, u4b, frames_append, show 15 + cnt % 16 + 95 = 110 + cnt % 16 by omega]
  · show w2.number = _
    rw [v3, u3b, h16]; omega
  · show w2.hue = _
    rw [v4, u4b]; omega
  · show w2.delays ++ [10] = _
    rw [v6, u6b, u2]

/-- C24: from a wheel state with the pixel number below `NEO_COUNT = 16` and
the hue below 192, one spin (button read pressed, counter value `cnt`,
`r = cnt % 16`) terminates, given a bound of at least 96 loop tests per loop:
the first loop makes `15 + r` pixel steps, the second 95, together `110 + r`
`NEO_setPixel` calls, call number `k` (from 0) being
`NEO_setPixel((start + 1 + k) % 16, (hue + 1 + k) % 192)`.  The last frame
transmitted is the one of pixel `(start + 14 + r) % 16` with the hue
`(hue + 110 + r) % 192`, below 192: it has 16 pixels, that pixel carries the
colour `NEO_writeHue` writes for the hue, which is not black, and every other
pixel is black `(0, 0, 0)`; the variables `number` and `hue` hold the same
pixel and hue.  The delays between the steps run from `15 + r` ms down to 1 ms
and then from 1 ms up to 95 ms.  Two spins from the same state end on the same
pixel, in the variable and in the last frame transmitted, exactly when their
counter values agree modulo 16, so the 16 values of `r` give 16 distinct final
pixels. -/
theorem spin_lands (fuel cnt : Nat) (w : Wheel) (hf : 96 ≤ fuel) (hn : w.number < NEO_COUNT)
    (hh : w.hue < 192) :
    ∃ w1 w2 w3 : Wheel,
      speed_up fuel { w with speed := ((16 + (cnt &&& 15)) % 2 ^ 32) % 256 } = some w1 ∧
      slow_down fuel w1 = some w2 ∧
      spin fuel cnt w = some w3 ∧ wheel_iter fuel true cnt w = some w3 ∧
      w1.frames.length = w.frames.length + (15 + cnt % 16) ∧
      w2.frames.length = w1.frames.length + 95 ∧
      w3.frames.length = w.frames.length + (110 + cnt % 16) ∧
      w3.frames = w.frames ++ (List.range (110 + cnt % 16)).map (fun k =>
        NEO_setPixel ((w.number + 1 + k) % NEO_COUNT) ((w.hue + 1 + k) % 192)) ∧
      w3.frames.getLast? = some (NEO_setPixel w3.number w3.hue) ∧
      w3.number = (w.number + 14 + cnt % 16) % NEO_COUNT ∧ w3.number < NEO_COUNT ∧
      w3.hue = (w.hue + 110 + cnt % 16) % 192 ∧ w3.hue < 192 ∧
      (NEO_setPixel w3.number w3.hue).length = NEO_COUNT ∧
      [(NEO_setPixel w3.number w3.hue).getD w3.number (0, 0, 0)] = NEO_writeHue w3.hue ∧
      (NEO_setPixel w3.number w3.hue).getD w3.number (0, 0, 0) ≠ (0, 0, 0) ∧
      (∀ i, i < NEO_COUNT → i ≠ w3.number →
        (NEO_setPixel w3.number w3.hue).getD i (0, 0, 0) = (0, 0, 0)) ∧
      w3.delays =
        w.delays ++ (List.range' 1 (15 + cnt % 16)).reverse ++ List.range' 1 95 ++ [10] ∧
      (∀ (cnt2 : Nat) (w4 : Wheel), spin fuel cnt2 w = some w4 →
        (w4.number = w3.number ↔ cnt2 % 16 = cnt % 16) ∧
        ∃ f, w4.frames.getLast? = some f ∧
          (f.getD w3.number (0, 0, 0) ≠ (0, 0, 0) ↔ cnt2 % 16 = cnt % 16)) := by
  have h16 : NEO_COUNT = 16 := rfl
  have hlast : ∀ (c : Nat) (v : Wheel),
      v.frames = w.frames ++ (List.range (110 + c % 16)).map (fun k =>
        NEO_setPixel ((w.number + 1 + k) % NEO_COUNT) ((w.hue + 1 + k) % 192)) →
      v.number = (w.number + 14 + c % 16) % NEO_COUNT →
      v.hue = (w.hue + 110 + c % 16) % 192 →
      v.frames.getLast? = some (NEO_setPixel v.number v.hue) := by
    intro c v hfr hnum hhue
    have e : 110 + c % 16 = (109 + c % 16) + 1 := by omega
    rw [hfr, e, List.range_succ, List.map_append, List.map_cons, List.map_nil,
      ← List.append_assoc, List.getLast?_concat, hnum, hhue]
    have e1 : (w.number + 1 + (109 + c % 16)) % NEO_COUNT = (w.number + 14 + c % 16) % NEO_COUNT := by
      rw [h16]; omega
    have e2 : (w.hue + 1 + (109 + c % 16)) % 192 = (w.hue + 110 + c % 16) % 192 := by omega
    rw [e1, e2]
  obtain ⟨w1, w2, w3, e1, e2, e3, e4, e5, e6, e7, e8, _, e10⟩ := spin_run fuel cnt w hf hn hh
  have hn3 : w3.number < NEO_COUNT := by rw [e7]; exact Nat.mod_lt _ (by decide)
  have hh3 : w3.hue < 192 := by rw [e8]; exact Nat.mod_lt _ (by decide)
  obtain ⟨p1, p2, p3, p4⟩ := NEO_setPixel_frame w3.number w3.hue hn3 hh3
  refine ⟨w1, w2, w3, e1, e2, e3, e3, e4, e5, ?_, e6, hlast cnt w3 e6 e7 e8, e7, hn3, e8, hh3,
    p1, p2, p3, p4, e10, ?_⟩
  · rw [e6, List.length_append, List.length_map, List.length_range]
  · intro cnt2 w4 hsp
    obtain ⟨_, _, w5, _, _, f3, _, _, f6, f7, f8, _⟩ := spin_run fuel cnt2 w hf hn hh
    rw [f3] at hsp
    have hw : w5 = w4 := Option.some.inj hsp
    subst hw
    have hn5 : w5.number < NEO_COUNT := by rw [f7]; exact Nat.mod_lt _ (by decide)
    have hh5 : w5.hue < 192 := by rw [f8]; exact Nat.mod_lt _ (by decide)
    obtain ⟨_, _, q3, q4⟩ := NEO_setPixel_frame w5.number w5.hue hn5 hh5
    have hnum : w5.number = w3.number ↔ cnt2 % 16 = cnt % 16 := by
      rw [f7, e7, h16]
      have := Nat.mod_lt cnt (show 0 < 16 by decide)
      have := Nat.mod_lt cnt2 (show 0 < 16 by decide)
      omega
    refine ⟨hnum, NEO_setPixel w5.number w5.hue, hlast cnt2 w5 f6 f7 f8, ?_⟩
    rw [← hnum]
    constructor
    · intro hlit
      by_contra hne
      exact hlit (q4 w3.number hn3 (fun h => hne h.symm))
    · intro heq
      rw [← heq]
      exact q3

/-- Instance of C24: a spin from pixel 9, hue 100 with counter value 21
(`r = 5`) and a bound of 96 loop tests. -/
theorem spin_lands_witness :
    ∃ w1 w2 w3 : Wheel,
      speed_up 96 { sample_wheel with speed := ((16 + (21 &&& 15)) % 2 ^ 32) % 256 } = some w1 ∧
      slow_down 96 w1 = some w2 ∧
      spin 96 21 sample_wheel = some w3 ∧ wheel_iter 96 true 21 sample_wheel = some w3 ∧
      w1.frames.length = sample_wheel.frames.length + (15 + 21 % 16) ∧
      w2.frames.length = w1.frames.length + 95 ∧
      w3.frames.length = sample_wheel.frames.length + (110 + 21 % 16) ∧
      w3.frames = sample_wheel.frames ++ (List.range (110 + 21 % 16)).map (fun k =>
        NEO_setPixel ((sample_wheel.number + 1 + k) % NEO_COUNT)
          ((sample_wheel.hue + 1 + k) % 192)) ∧
      w3.frames.getLast? = some (NEO_setPixel w3.number w3.hue) ∧
      w3.number = (sample_wheel.number + 14 + 21 % 16) % NEO_COUNT ∧ w3.number < NEO_COUNT ∧
      w3.hue = (sample_wheel.hue + 110 + 21 % 16) % 192 ∧ w3.hue < 192 ∧
      (NEO_setPixel w3.number w3.hue).length = NEO_COUNT ∧
      [(NEO_setPixel w3.number w3.hue).getD w3.number (0, 0, 0)] = NEO_writeHue w3.hue ∧
      (NEO_setPixel w3.number w3.hue).getD w3.number (0, 0, 0) ≠ (0, 0, 0) ∧
      (∀ i, i < NEO_COUNT → i ≠ w3.number →
        (NEO_setPixel w3.number w3.hue).getD i (0, 0, 0) = (0, 0, 0)) ∧
      w3.delays =
        sample_wheel.delays ++ (List.range' 1 (15 + 21 % 16)).reverse ++ List.range' 1 95 ++
          [10] ∧
      (∀ (cnt2 : Nat) (w4 : Wheel), spin 96 cnt2 sample_wheel = some w4 →
        (w4.number = w3.number ↔ cnt2 % 16 = 21 % 16) ∧
        ∃ f, w4.frames.getLast? = some f ∧
          (f.getD w3.number (0, 0, 0) ≠ (0, 0, 0) ↔ cnt2 % 16 = 21 % 16)) :=
  spin_lands 96 21 sample_wheel (by decide) (by decide) (by decide)

end NeoWof

end TinyBling
